import Mathlib

/-!
# FlowDrafter irrigation design engine : a shallow embedding

This file embeds the deterministic design engine of the FlowDrafter
repository (TypeScript) into Lean 4 and proves / refutes the frozen claims
about it.

Modelling conventions:

* JavaScript numbers are modelled by `ℚ` (exact arithmetic).  The two
  transcendental library calls the engine makes, `Math.sqrt` (inside
  `distance`) and `Math.PI` (inside `estimateZoneArea`), are abstracted as
  parameters `sqrtF : ℚ → ℚ` and `piF : ℚ`; every theorem below is proved
  for *all* values of these parameters, hence in particular for the values
  the floating-point library computes.
* `Math.round x` (round half towards +infinity) is `⌊x + 1/2⌋`;
  `Math.ceil` is `⌈·⌉`.
* TypeScript string-literal union types are modelled by `String`.
* The module-level ID counters (`headCounter`, `pipeCounter`), reset at the
  start of each call, are modelled by explicit counter passing.
-/

namespace FlowDrafter

/-- JavaScript `Math.round`: rounds half towards positive infinity. -/
def jsRound (q : ℚ) : ℤ := ⌊q + 1/2⌋

/-- `Math.round(x * 10) / 10` - round to one decimal. -/
def roundTo1 (q : ℚ) : ℚ := (jsRound (q * 10) : ℚ) / 10

/-- `Math.round(x * 100) / 100` - round to two decimals. -/
def roundTo2 (q : ℚ) : ℚ := (jsRound (q * 100) : ℚ) / 100

/-! ## Geometry utilities (`src/utils/geometry.ts`) -/

/-- A 2D point in feet (`interface Point`). -/
structure Point where
  x : ℚ
  y : ℚ
  deriving DecidableEq, Repr

/-- `distance(a, b)` = `Math.sqrt((bx-ax)^2 + (by-ay)^2)`; the square root
is the abstracted float `Math.sqrt`. -/
def distance (sqrtF : ℚ → ℚ) (a b : Point) : ℚ :=
  sqrtF ((b.x - a.x) ^ 2 + (b.y - a.y) ^ 2)

/-- Cyclic vertex access: `vtx l i = l[i mod n]` (total, default for `[]`). -/
def vtx (l : List Point) (i : ℕ) : Point := l.getD (i % l.length) ⟨0, 0⟩

/-- `areaOfPolygon(points)`: shoelace formula over cyclically consecutive
pairs `(i, j = (i+1) mod n)`, absolute value, halved. -/
def areaOfPolygon (points : List Point) : ℚ :=
  |(List.range points.length).foldl
      (fun area i =>
        area + (vtx points i).x * (vtx points (i + 1)).y
             - (vtx points (i + 1)).x * (vtx points i).y)
      0| / 2

/-- `centroid(points)`: arithmetic mean of the points. -/
def centroid (points : List Point) : Point :=
  { x := (points.map (·.x)).sum / points.length,
    y := (points.map (·.y)).sum / points.length }

/-- Bounding-box record returned by `boundingBox`. -/
structure BBox where
  minX : ℚ
  minY : ℚ
  maxX : ℚ
  maxY : ℚ
  width : ℚ
  height : ℚ
  deriving DecidableEq, Repr

/-- `boundingBox(points)`.  The source starts the fold from `±Infinity`;
for a nonempty list that is the same as folding min/max from the first
point, which is how it is written here (callers only invoke it on
nonempty lists). -/
def boundingBox (points : List Point) : BBox :=
  match points with
  | [] => ⟨0, 0, 0, 0, 0, 0⟩
  | p :: rest =>
      let mnx := rest.foldl (fun m q => min m q.x) p.x
      let mny := rest.foldl (fun m q => min m q.y) p.y
      let mxx := rest.foldl (fun m q => max m q.x) p.x
      let mxy := rest.foldl (fun m q => max m q.y) p.y
      ⟨mnx, mny, mxx, mxy, mxx - mnx, mxy - mny⟩

/-- `generateGridPoints(originX, originY, width, height, spacingX, spacingY,
pattern)`: `ceil(width/spacingX)+1` columns by `ceil(height/spacingY)+1`
rows; odd rows of a `"triangular"` pattern are offset by `spacingX/2`;
candidate points beyond `origin + extent` are dropped.  `Int.toNat`
mirrors the JavaScript `for` loop running zero times on a negative bound. -/
def generateGridPoints (originX originY width height spacingX spacingY : ℚ)
    (pattern : String) : List Point :=
  let cols := (⌈width / spacingX⌉ + 1).toNat
  let rows := (⌈height / spacingY⌉ + 1).toNat
  (List.range rows).flatMap (fun (row : ℕ) =>
    let offsetX : ℚ := if pattern = "triangular" ∧ row % 2 = 1 then spacingX / 2 else 0
    (List.range cols).filterMap (fun (col : ℕ) =>
      let x := originX + (col : ℚ) * spacingX + offsetX
      let y := originY + (row : ℚ) * spacingY
      if x ≤ originX + width ∧ y ≤ originY + height then some ⟨x, y⟩ else none))

/-- One iteration of the `isPointInPolygon` ray-casting loop: the edge with
endpoint `cur = polygon[i]` and `prev = polygon[j]` (`j = i-1` cyclically)
toggles `inside` when it straddles the horizontal through `p` and the
crossing lies strictly to the right of `p`. -/
def edgeFlip (p cur prev : Point) : Bool :=
  (decide (prev.y > p.y) != decide (cur.y > p.y)) &&
    decide (p.x < (prev.x - cur.x) * (p.y - cur.y) / (prev.y - cur.y) + cur.x)

/-- `isPointInPolygon(point, polygon)`: standard even-odd ray casting.  The
source iterates `i = 0..n-1` with `j` the cyclically previous index. -/
def isPointInPolygon (p : Point) (polygon : List Point) : Bool :=
  (List.range polygon.length).foldl
    (fun inside i =>
      if edgeFlip p (vtx polygon i) (vtx polygon (i + polygon.length - 1))
      then !inside else inside)
    false

/-- The planar cross product `(b - a) x (c - a)`: positive exactly when
`c` lies strictly to the left of the directed line `a -> b` (used to state
convexity of a vertex list; not part of the source, which tests convexity
only implicitly through the claim's wording). -/
def cross (a b c : Point) : ℚ :=
  (b.x - a.x) * (c.y - a.y) - (b.y - a.y) * (c.x - a.x)

/-- The x-coordinate where the line through `a` and `b` meets the
horizontal line at height `y0` (the quantity `isPointInPolygon` compares
against `point.x`). -/
def Xat (a b : Point) (y0 : ℚ) : ℚ :=
  a.x + (b.x - a.x) * (y0 - a.y) / (b.y - a.y)

/-- A vertex list in strictly convex position, counter-clockwise: every
vertex other than an edge's endpoints lies strictly left of that directed
edge.  This is the formalization of "convex polygon" used for claim C8. -/
def StrictConvex (l : List Point) : Prop :=
  ∀ i < l.length, ∀ j < l.length,
    j ≠ i → j ≠ (i + 1) % l.length →
      0 < cross (vtx l i) (vtx l (i + 1)) (vtx l j)

instance decStrictConvex (l : List Point) : Decidable (StrictConvex l) :=
  inferInstanceAs (Decidable (∀ i < l.length, ∀ j < l.length,
    j ≠ i → j ≠ (i + 1) % l.length →
      0 < cross (vtx l i) (vtx l (i + 1)) (vtx l j)))

/-! ## Equipment catalog (`src/data/materials.ts`) -/

/-- `interface HeadSpec`. -/
structure HeadSpec where
  id : String
  category : String
  name : String
  manufacturer : String
  model : String
  application : String
  minRadiusFt : ℚ
  maxRadiusFt : ℚ
  defaultRadiusFt : ℚ
  arcAdjustable : Bool
  defaultArc : ℚ
  gpmAtDefaultRadius : ℚ
  psi : ℚ
  nozzle : String
  popUpHeight : Option ℚ
  features : List String
  planLabel : String
  deriving DecidableEq, Repr

/-- `interface ValveSpec`. -/
structure ValveSpec where
  id : String
  category : String
  name : String
  manufacturer : String
  model : String
  application : String
  sizeIn : ℚ
  features : List String
  deriving DecidableEq, Repr

/-- `SPRINKLER_HEADS` catalog. -/
def SPRINKLER_HEADS : List HeadSpec :=
  [ { id := "i-40-04-ss", category := "rotor", name := "Rotor - Large Turf",
      manufacturer := "Hunter", model := "I-40-04-SS",
      application := "Open turf, athletic fields",
      minRadiusFt := 38, maxRadiusFt := 72, defaultRadiusFt := 42,
      arcAdjustable := true, defaultArc := 360, gpmAtDefaultRadius := 4.2,
      psi := 45, nozzle := "#6.0", popUpHeight := some 4,
      features := ["Stainless riser", "Adjustable arc"], planLabel := "RTR" },
    { id := "5004-pc-sam", category := "rotor", name := "Rotor - Medium Turf",
      manufacturer := "Rain Bird", model := "5004-PC-SAM",
      application := "Medium turf panels, medians",
      minRadiusFt := 25, maxRadiusFt := 50, defaultRadiusFt := 35,
      arcAdjustable := true, defaultArc := 360, gpmAtDefaultRadius := 3.0,
      psi := 45, nozzle := "#3.0", popUpHeight := some 4,
      features := ["PRS", "SAM check valve", "Adjustable arc"], planLabel := "RTR" },
    { id := "pgp-adj", category := "rotor", name := "Rotor - Small Turf",
      manufacturer := "Hunter", model := "PGP-ADJ",
      application := "Small turf, courtyards",
      minRadiusFt := 22, maxRadiusFt := 52, defaultRadiusFt := 25,
      arcAdjustable := true, defaultArc := 360, gpmAtDefaultRadius := 2.2,
      psi := 45, nozzle := "#2.0", popUpHeight := some 4,
      features := ["Rubber cover", "Adjustable arc"], planLabel := "RTR" },
    { id := "1804-sam-prs", category := "spray", name := "Spray - Fixed",
      manufacturer := "Rain Bird", model := "1804-SAM-PRS",
      application := "Beds, small turf < 15 ft",
      minRadiusFt := 8, maxRadiusFt := 15, defaultRadiusFt := 12,
      arcAdjustable := false, defaultArc := 360, gpmAtDefaultRadius := 1.5,
      psi := 30, nozzle := "15-SST", popUpHeight := some 4,
      features := ["SAM", "PRS at 30 PSI", "4-inch pop-up"], planLabel := "SP" },
    { id := "mp3000", category := "rotary-nozzle", name := "Spray - Rotary Nozzle",
      manufacturer := "Hunter", model := "MP Rotator MP3000",
      application := "Medium beds, 8-21 ft strips",
      minRadiusFt := 8, maxRadiusFt := 21, defaultRadiusFt := 15,
      arcAdjustable := true, defaultArc := 360, gpmAtDefaultRadius := 0.9,
      psi := 40, nozzle := "MP3000", popUpHeight := none,
      features := ["Adjustable arc", "Matched precip rate"], planLabel := "RN" },
    { id := "he-van-15-sst", category := "strip", name := "Spray - Strip",
      manufacturer := "Rain Bird", model := "HE-VAN-15-SST",
      application := "Narrow strips < 8 ft",
      minRadiusFt := 4, maxRadiusFt := 15, defaultRadiusFt := 8,
      arcAdjustable := false, defaultArc := 180, gpmAtDefaultRadius := 1.0,
      psi := 30, nozzle := "HE-VAN", popUpHeight := none,
      features := ["Side strip pattern", "15 ft throw"], planLabel := "SP" },
    { id := "tlcv-09-12-500", category := "drip", name := "Drip Emitter Line",
      manufacturer := "Netafim", model := "Techline TLCV-09-12-500",
      application := "Beds, tree rings, planters",
      minRadiusFt := 0, maxRadiusFt := 0, defaultRadiusFt := 0,
      arcAdjustable := false, defaultArc := 0, gpmAtDefaultRadius := 0,
      psi := 30, nozzle := "0.9 GPH @ 12\" OC", popUpHeight := none,
      features := ["0.9 GPH", "12-inch spacing", "CV"], planLabel := "DRIP" },
    { id := "44rc", category := "quick-coupler", name := "Quick Coupler Valve",
      manufacturer := "Rain Bird", model := "44RC",
      application := "Athletic field midfield/sideline",
      minRadiusFt := 0, maxRadiusFt := 0, defaultRadiusFt := 0,
      arcAdjustable := false, defaultArc := 0, gpmAtDefaultRadius := 0,
      psi := 0, nozzle := "", popUpHeight := none,
      features := ["1-inch", "Brass", "Locking rubber cover"], planLabel := "QC" } ]

/-- `VALVES` catalog. -/
def VALVES : List ValveSpec :=
  [ { id := "peb-100", category := "zone", name := "Zone Valve - 1 inch",
      manufacturer := "Rain Bird", model := "PEB-100",
      application := "Standard spray/drip zones", sizeIn := 1,
      features := ["Globe", "Flow control", "PEB solenoid"] },
    { id := "peb-150", category := "zone", name := "Zone Valve - 1.5 inch",
      manufacturer := "Rain Bird", model := "PEB-150",
      application := "Rotor zones > 15 GPM", sizeIn := 1.5,
      features := ["Globe", "Flow control"] },
    { id := "200-peb", category := "master", name := "Master Valve",
      manufacturer := "Rain Bird", model := "200-PEB",
      application := "Main line shutoff", sizeIn := 2,
      features := ["Normally closed", "24V"] },
    { id := "009m2-qt", category := "backflow", name := "Backflow - RPZ",
      manufacturer := "Watts", model := "009M2-QT",
      application := "Point of connection", sizeIn := 1.5,
      features := ["Size per mainline", "Tested annually"] } ]

/-- Fallback values for the source's non-null assertions (`find(...)!`).
The fixed catalogs contain every id the engine looks up, so these defaults
are never reached. -/
def defaultHeadSpec : HeadSpec :=
  { id := "", category := "", name := "", manufacturer := "", model := "",
    application := "", minRadiusFt := 0, maxRadiusFt := 0, defaultRadiusFt := 0,
    arcAdjustable := false, defaultArc := 0, gpmAtDefaultRadius := 0, psi := 0,
    nozzle := "", popUpHeight := none, features := [], planLabel := "" }

/-- Fallback `ValveSpec` for the source's non-null assertions. -/
def defaultValveSpec : ValveSpec :=
  { id := "", category := "", name := "", manufacturer := "", model := "",
    application := "", sizeIn := 0, features := [] }

/-- `SPRINKLER_HEADS.find(h => h.id === hid)!`. -/
def findHead (hid : String) : HeadSpec :=
  ((SPRINKLER_HEADS.find? (fun h => h.id = hid)).getD defaultHeadSpec)

/-- `VALVES.find(v => v.id === vid)!`. -/
def findValve (vid : String) : ValveSpec :=
  ((VALVES.find? (fun v => v.id = vid)).getD defaultValveSpec)

/-- `selectHeadForZone(zoneType, maxDimensionFt, isAthleticField)`. -/
def selectHeadForZone (zoneType : String) (maxDimensionFt : ℚ)
    (isAthleticField : Bool) : HeadSpec :=
  if zoneType = "narrow-strip" then findHead "he-van-15-sst"
  else if zoneType = "bed" ∨ zoneType = "tree-ring" ∨ zoneType = "planter" then
    if maxDimensionFt ≤ 8 then findHead "he-van-15-sst"
    else if maxDimensionFt ≤ 21 then findHead "mp3000"
    else findHead "1804-sam-prs"
  else if isAthleticField ∨ maxDimensionFt > 80 then findHead "i-40-04-ss"
  else if maxDimensionFt > 50 then findHead "5004-pc-sam"
  else if maxDimensionFt > 25 then findHead "pgp-adj"
  else findHead "1804-sam-prs"

/-- `selectValveForZone(totalGPM)`. -/
def selectValveForZone (totalGPM : ℚ) : ValveSpec :=
  if totalGPM > 15 then findValve "peb-150" else findValve "peb-100"

/-- `ZONE_COLORS` (`src/data/zoneColors.ts`). -/
def ZONE_COLORS : List String :=
  ["#DC2626", "#2563EB", "#16A34A", "#EA580C", "#9333EA", "#92400E",
   "#DB2777", "#0D9488"]

/-- `getZoneColor(zoneIndex)`. -/
def getZoneColor (zoneIndex : ℕ) : String :=
  ZONE_COLORS.getD (zoneIndex % ZONE_COLORS.length) ""

/-! ## Design rules (`src/data/designRules.ts`) -/

/-- `getMainlineSizeIn(totalGPM)`. -/
def getMainlineSizeIn (totalGPM : ℚ) : ℚ := if totalGPM ≥ 40 then 2 else 1.5

/-- `getLateralSizeIn(headType)`. -/
def getLateralSizeIn (headType : String) : ℚ :=
  if headType = "rotor" then 1 else 0.75

/-- `needsMasterValve(totalGPM)`. -/
def needsMasterValve (totalGPM : ℚ) : Bool := totalGPM > 30

/-- `getMaxGPMForLateral(lateralSizeIn)`. -/
def getMaxGPMForLateral (lateralSizeIn : ℚ) : ℚ :=
  if lateralSizeIn ≥ 1.25 then 22 else 15

/-! ## Data model (`src/types.ts`) -/

/-- `interface HeadPlacement`. -/
structure Head where
  id : String
  x : ℚ
  y : ℚ
  type : String
  model : String
  manufacturer : String
  arc : ℚ
  radiusFt : ℚ
  gpm : ℚ
  psi : ℚ
  nozzle : String
  zoneId : String
  deriving DecidableEq, Repr

/-- `interface IrrigableZone` (the fields the design engine reads). -/
structure IrrigableZone where
  id : String
  type : String
  widthFt : ℚ
  lengthFt : ℚ
  areaFt2 : ℚ
  exposure : String
  centerX : ℚ
  centerY : ℚ
  boundaryPoints : List Point
  deriving DecidableEq, Repr

/-- `interface SiteAnalysis` (the fields the design engine reads). -/
structure SiteAnalysis where
  propertyWidthFt : ℚ
  propertyLengthFt : ℚ
  turfZones : List IrrigableZone
  bedZones : List IrrigableZone
  narrowStrips : List IrrigableZone
  waterSourceLocation : Option Point
  controllerLocation : Option Point
  nearestBuildingLocation : Point
  deriving DecidableEq, Repr

/-- `interface ProjectInput` (the fields the design engine reads; the image
payload fields are irrelevant to the core and omitted). -/
structure ProjectInput where
  projectName : String
  waterSupplySize : ℚ
  staticPressurePSI : ℚ
  soilType : String
  turfType : String
  applicationType : String
  deriving DecidableEq, Repr

/-- `interface Zone` (an irrigation/valve zone). -/
structure Zone where
  id : String
  number : ℕ
  headType : String
  exposure : String
  heads : List String
  totalGPM : ℚ
  precipRateInPerHr : ℚ
  runtimeMinutes : ℤ
  color : String
  valveModel : String
  valveSize : ℚ
  deriving DecidableEq, Repr

/-- `interface PipeSegment`. -/
structure PipeSegment where
  id : String
  startX : ℚ
  startY : ℚ
  endX : ℚ
  endY : ℚ
  diameterIn : ℚ
  material : String
  type : String
  zoneId : Option String
  deriving DecidableEq, Repr

/-- `interface MaterialScheduleItem`. -/
structure MaterialScheduleItem where
  item : String
  manufacturer : String
  model : String
  quantity : ℤ
  unit : String
  deriving DecidableEq, Repr

/-! ## Head placement (`src/engine/headPlacement.ts`)

The module-level `headCounter` (reset to 0 at the start of `placeAllHeads`)
is modelled by threading a counter. -/

/-- `nextHeadId()`: increments the counter and returns `H-<counter>`. -/
def nextHeadId (cnt : ℕ) : ℕ × String := (cnt + 1, "H-" ++ toString (cnt + 1))

/-- `determineArc(pt, bb)`: corner (two close edges) = 90, edge = 180,
interior = 360; fixed 2 ft tolerance. -/
def determineArc (pt : Point) (bb : BBox) : ℚ :=
  let edgeThreshold : ℚ := 2
  let atLeft := decide (|pt.x - bb.minX| < edgeThreshold)
  let atRight := decide (|pt.x - bb.maxX| < edgeThreshold)
  let atTop := decide (|pt.y - bb.minY| < edgeThreshold)
  let atBottom := decide (|pt.y - bb.maxY| < edgeThreshold)
  let edgeCount := [atLeft, atRight, atTop, atBottom].countP (fun b => b)
  if edgeCount ≥ 2 then 90 else if edgeCount = 1 then 180 else 360

/-- `adjustGPMForArc(fullCircleGPM, arc)`. -/
def adjustGPMForArc (fullCircleGPM arc : ℚ) : ℚ := fullCircleGPM * (arc / 360)

/-- `placeDripZone(zone, headSpec)`: exactly one emitter at the zone's
center, `arc = 0`, `radius = 0`, `gpm = (area/144) * 0.9`, 30 PSI. -/
def placeDripZone (cnt : ℕ) (zone : IrrigableZone) (headSpec : HeadSpec) :
    ℕ × List Head :=
  let (cnt1, hid) := nextHeadId cnt
  (cnt1,
    [{ id := hid, x := zone.centerX, y := zone.centerY, type := "drip",
       model := headSpec.model, manufacturer := headSpec.manufacturer,
       arc := 0, radiusFt := 0, gpm := (zone.areaFt2 / 144) * 0.9,
       psi := 30, nozzle := headSpec.nozzle, zoneId := "" }])

/-- The head-kind string stored on a grid head:
`category === 'rotary-nozzle' ? ... : 'spray'`. -/
def gridHeadType (category : String) : String :=
  if category = "rotary-nozzle" then "rotary-nozzle"
  else if category = "strip" then "strip"
  else if category = "rotor" then "rotor"
  else "spray"

/-- The bounding box used by `placeHeadsInZone`: from the boundary points
when any are present, else derived from center and width/length. -/
def zoneBBox (zone : IrrigableZone) : BBox :=
  if zone.boundaryPoints.length > 0 then boundingBox zone.boundaryPoints
  else
    { minX := zone.centerX - zone.widthFt / 2,
      minY := zone.centerY - zone.lengthFt / 2,
      maxX := zone.centerX + zone.widthFt / 2,
      maxY := zone.centerY + zone.lengthFt / 2,
      width := zone.widthFt, height := zone.lengthFt }

/-- Builds one grid head at `pt` (the loop body of `placeHeadsInZone`). -/
def mkGridHead (hid : String) (headSpec : HeadSpec) (bb : BBox) (pt : Point) :
    Head :=
  let arc := determineArc pt bb
  { id := hid, x := pt.x, y := pt.y, type := gridHeadType headSpec.category,
    model := headSpec.model, manufacturer := headSpec.manufacturer, arc := arc,
    radiusFt := headSpec.defaultRadiusFt,
    gpm := adjustGPMForArc headSpec.gpmAtDefaultRadius arc,
    psi := headSpec.psi, nozzle := headSpec.nozzle, zoneId := "" }

/-- The in-bounds test of `placeHeadsInZone`: polygon containment when at
least 3 boundary points exist, else every grid point passes. -/
def gridPointInBounds (zone : IrrigableZone) (pt : Point) : Bool :=
  if zone.boundaryPoints.length ≥ 3 then isPointInPolygon pt zone.boundaryPoints
  else true

/-- The grid-point loop body of `placeHeadsInZone`: keep the point when it
is in bounds, minting a fresh id. -/
def gridStep (headSpec : HeadSpec) (bb : BBox) (zone : IrrigableZone)
    (acc : ℕ × List Head) (pt : Point) : ℕ × List Head :=
  if gridPointInBounds zone pt then
    ((nextHeadId acc.1).1, acc.2 ++ [mkGridHead (nextHeadId acc.1).2 headSpec bb pt])
  else acc

/-- `placeHeadsInZone(zone, isAthleticField)`. -/
def placeHeadsInZone (cnt : ℕ) (zone : IrrigableZone)
    (isAthleticField : Bool) : ℕ × List Head :=
  let maxDim := max zone.widthFt zone.lengthFt
  let headSpec := selectHeadForZone zone.type maxDim isAthleticField
  if headSpec.category = "drip" then placeDripZone cnt zone headSpec
  else
    let spacing := headSpec.defaultRadiusFt
    let pattern := if isAthleticField then "triangular" else "square"
    let bb := zoneBBox zone
    let gridPoints := generateGridPoints bb.minX bb.minY bb.width bb.height
      spacing spacing pattern
    gridPoints.foldl (gridStep headSpec bb zone) (cnt, [])

/-- The three fixed quick-coupler placements appended for athletic fields. -/
def quickCouplerHeads (cnt : ℕ) (site : SiteAnalysis) : ℕ × List Head :=
  let qc := findHead "44rc"
  let qcPositions : List Point :=
    [ ⟨site.propertyWidthFt / 2, site.propertyLengthFt / 2⟩,
      ⟨site.propertyWidthFt / 2, site.propertyLengthFt * 0.25⟩,
      ⟨site.propertyWidthFt / 2, site.propertyLengthFt * 0.75⟩ ]
  qcPositions.foldl
    (fun (acc : ℕ × List Head) pos =>
      let (cnt1, hid) := nextHeadId acc.1
      (cnt1, acc.2 ++
        [{ id := hid, x := pos.x, y := pos.y, type := "quick-coupler",
           model := qc.model, manufacturer := qc.manufacturer, arc := 0,
           radiusFt := 0, gpm := 0, psi := 0, nozzle := "", zoneId := "" }]))
    (cnt, [])

/-- The per-zone step of `placeAllHeads`: run `placeHeadsInZone` on the
current counter and append the produced heads. -/
def headsStep (ath : Bool) (acc : ℕ × List Head) (zone : IrrigableZone) :
    ℕ × List Head :=
  let r := placeHeadsInZone acc.1 zone ath
  (r.1, acc.2 ++ r.2)

/-- `placeAllHeads(siteAnalysis, projectInput)`: turf zones (athletic flag
as given), then bed zones and narrow strips (flag forced false), then the
quick couplers for athletic fields.  The counter starts at 0. -/
def placeAllHeads (site : SiteAnalysis) (proj : ProjectInput) : List Head :=
  let isAthletic := proj.applicationType = "athletic-field"
  let acc3 :=
    site.narrowStrips.foldl (headsStep false)
      (site.bedZones.foldl (headsStep false)
        (site.turfZones.foldl (headsStep isAthletic) (0, [])))
  if isAthletic then acc3.2 ++ (quickCouplerHeads acc3.1 site).2 else acc3.2

/-! ## Zone assignment (`zoneAssignment.ts`)

`groupHeadsByType` builds a plain JavaScript object keyed by the head-kind
string; `Object.entries` then yields the groups in key-insertion order
(head kinds are never integer-like strings).  This is modelled by the list
of first-occurrence keys `groupKeys`, each paired with the subsequence of
heads of that kind. -/

/-- Appends a key if it is not already present (JS object key insertion). -/
def insertKey (ks : List String) (k : String) : List String :=
  if k ∈ ks then ks else ks ++ [k]

/-- The head-kind keys in first-insertion order. -/
def groupKeys (heads : List Head) : List String :=
  heads.foldl (fun ks h => insertKey ks h.type) []

/-- `estimateZoneArea(heads)`: 0 for no heads; `Math.PI * 100` (`piF * 100`)
per emitter for drip; otherwise `count * avgRadius²` (note: no π factor
and the mean radius is squared). -/
def estimateZoneArea (piF : ℚ) (heads : List Head) : ℚ :=
  if heads.length = 0 then 0
  else if ((heads.head?.map (·.type)).getD "") = "drip" then
    heads.foldl (fun s _ => s + piF * 100) 0
  else
    let avgRadius :=
      (heads.foldl (fun s h => s + h.radiusFt) 0) / (heads.length : ℚ)
    (heads.length : ℚ) * avgRadius * avgRadius

/-- `createZone(number, heads, headType)`. -/
def createZone (piF : ℚ) (number : ℕ) (heads : List Head)
    (headType : String) : Zone :=
  let totalGPM := heads.foldl (fun s h => s + h.gpm) 0
  let totalArea := estimateZoneArea piF heads
  let precipRate := if totalArea > 0 then (totalGPM * 96.25) / totalArea else 0
  let runtime := if precipRate > 0 then (0.5 / precipRate) * 60 else 0
  let valve := selectValveForZone totalGPM
  { id := "Z-" ++ toString number, number := number, headType := headType,
    exposure := "full-sun", heads := heads.map (·.id),
    totalGPM := roundTo1 totalGPM,
    precipRateInPerHr := roundTo2 precipRate,
    runtimeMinutes := jsRound runtime,
    color := getZoneColor (number - 1),
    valveModel := valve.model, valveSize := valve.sizeIn }

/-- Replaces the first head whose id is `hid` (the `findIndex` + functional
update in `assignHeadsToZone`). -/
def setZoneIdAtFirst : List Head → String → String → List Head
  | [], _, _ => []
  | h :: t, hid, zid =>
      if h.id = hid then { h with zoneId := zid } :: t
      else h :: setZoneIdAtFirst t hid zid

/-- `assignHeadsToZone(allHeads, zoneHeads, zoneId)`. -/
def assignHeadsToZone (allHeads : List Head) (zoneHeads : List Head)
    (zoneId : String) : List Head :=
  zoneHeads.foldl (fun acc zh => setZoneIdAtFirst acc zh.id zoneId) allHeads

/-- Accumulator of the `assignZones` loops: zones so far, next zone number,
and the progressively updated head list. -/
structure AZAcc where
  zones : List Zone
  num : ℕ
  upd : List Head
  deriving Repr

/-- Closing the current zone: create it, append it, bump the number, and
write its id into the member heads. -/
def closeZone (piF : ℚ) (k : String) (acc : AZAcc) (cur : List Head) : AZAcc :=
  let z := createZone piF acc.num cur k
  { zones := acc.zones ++ [z], num := acc.num + 1,
    upd := assignHeadsToZone acc.upd cur z.id }

/-- The inner `for (const head of groupHeads)` loop of `assignZones`
together with the trailing flush: greedy first-fit packing by running GPM.
`cur` is the current zone's head list and `curGPM` its running total. -/
def packGroup (piF maxGPM : ℚ) (k : String) :
    AZAcc → List Head → List Head → ℚ → AZAcc
  | acc, [], cur, _ => if cur.isEmpty then acc else closeZone piF k acc cur
  | acc, h :: rest, cur, curGPM =>
      if curGPM + h.gpm > maxGPM ∧ ¬ cur.isEmpty then
        packGroup piF maxGPM k (closeZone piF k acc cur) rest [h] h.gpm
      else
        packGroup piF maxGPM k acc rest (cur ++ [h]) (curGPM + h.gpm)

/-- One group of the `assignZones` outer loop: skip quick-couplers, else
greedily pack the group (the heads of kind `k`, in input order). -/
def azFold (piF : ℚ) (heads : List Head) (acc : AZAcc) (k : String) : AZAcc :=
  if k = "quick-coupler" then acc
  else
    packGroup piF (getMaxGPMForLateral (getLateralSizeIn k)) k acc
      (heads.filter (fun h => h.type = k)) [] 0

/-- `assignZones(heads)`: groups by head kind (insertion order), skips
quick-couplers, and greedily packs each group. -/
def assignZones (piF : ℚ) (heads : List Head) : List Zone × List Head :=
  let acc := (groupKeys heads).foldl (azFold piF heads) ⟨[], 1, heads⟩
  (acc.zones, acc.upd)

/-! ## Pipe routing (`pipeRouting.ts`)

The module-level `pipeCounter` (reset at the start of `routePipes`) is
modelled by threading a counter. -/

/-- A placed valve record (`RoutingResult['valves']`). -/
structure RoutedValve where
  id : String
  x : ℚ
  y : ℚ
  model : String
  size : ℚ
  type : String
  zoneId : Option String
  deriving DecidableEq, Repr

/-- An equipment record: position plus model (controller, rain sensor). -/
structure PlacedEquip where
  x : ℚ
  y : ℚ
  model : String
  deriving DecidableEq, Repr

/-- The backflow record: position, model and size. -/
structure PlacedBackflow where
  x : ℚ
  y : ℚ
  model : String
  size : ℚ
  deriving DecidableEq, Repr

/-- `interface RoutingResult`. -/
structure RoutingResult where
  pipes : List PipeSegment
  valves : List RoutedValve
  poc : Point
  backflow : PlacedBackflow
  controller : PlacedEquip
  rainSensor : PlacedEquip
  deriving DecidableEq, Repr

/-- `nextPipeId()`. -/
def nextPipeId (cnt : ℕ) : ℕ × String := (cnt + 1, "P-" ++ toString (cnt + 1))

/-- `findNearestHead(target, allHeads, valvePos)`: the valve position or
whichever other head of the zone is nearest to `target`. -/
def findNearestHead (sqrtF : ℚ → ℚ) (target : Head) (allHeads : List Head)
    (valvePos : Point) : Point :=
  let tPt : Point := ⟨target.x, target.y⟩
  (allHeads.foldl
    (fun (acc : Point × ℚ) h =>
      if h.id = target.id then acc
      else
        let d := distance sqrtF tPt ⟨h.x, h.y⟩
        if d < acc.2 then (⟨h.x, h.y⟩, d) else acc)
    (valvePos, distance sqrtF tPt valvePos)).1

/-- The per-zone body of the routing loop: places the zone valve, the
mainline stub to it, and one lateral per non-quick-coupler head. -/
def routeZone (sqrtF : ℚ → ℚ) (heads : List Head) (pocPos : Point)
    (mainlineStartX mainlineSize : ℚ)
    (acc : List PipeSegment × List RoutedValve × ℕ) (zone : Zone) :
    List PipeSegment × List RoutedValve × ℕ :=
  let zoneHeads := heads.filter (fun h => h.zoneId = zone.id)
  if zoneHeads.length = 0 then acc
  else
    let zoneCenter := centroid (zoneHeads.map (fun h => ⟨h.x, h.y⟩))
    let valvePos : Point := ⟨zoneCenter.x - 3, zoneCenter.y - 3⟩
    let valves := acc.2.1 ++
      [{ id := "V-" ++ toString zone.number, x := valvePos.x, y := valvePos.y,
         model := zone.valveModel, size := zone.valveSize, type := "zone",
         zoneId := some zone.id }]
    let (cnt1, pid) := nextPipeId acc.2.2
    let pipes := acc.1 ++
      [{ id := pid, startX := mainlineStartX, startY := pocPos.y,
         endX := valvePos.x, endY := valvePos.y, diameterIn := mainlineSize,
         material := "sch40-pvc", type := "mainline", zoneId := none }]
    let lateralSize : ℚ := if zone.headType = "rotor" then 1 else 0.75
    let final := zoneHeads.foldl
      (fun (a : List PipeSegment × ℕ) head =>
        if head.type = "quick-coupler" then a
        else
          let nearest := findNearestHead sqrtF head zoneHeads valvePos
          let (c1, pid1) := nextPipeId a.2
          (a.1 ++
            [{ id := pid1, startX := nearest.x, startY := nearest.y,
               endX := head.x, endY := head.y, diameterIn := lateralSize,
               material := "class200-pvc",
               type := if zone.headType = "drip" then "drip-supply" else "lateral",
               zoneId := some zone.id }], c1))
      (pipes, cnt1)
    (final.1, valves, final.2)

/-- The POC position: explicit water-source location or the left-mid-edge
default. -/
def pocPosOf (site : SiteAnalysis) : Point :=
  site.waterSourceLocation.getD ⟨5, site.propertyLengthFt / 2⟩

/-- Total system GPM as summed by `routePipes`. -/
def totalGPMOf (zones : List Zone) : ℚ :=
  zones.foldl (fun s z => s + z.totalGPM) 0

/-- The backflow preventer position, 5 ft past the POC. -/
def backflowPosOf (site : SiteAnalysis) : Point :=
  ⟨(pocPosOf site).x + 5, (pocPosOf site).y⟩

/-- The conditional master-valve segment of `routePipes`: its pipe list,
valve list and pipe-counter state before the per-zone loop. -/
def mvPartOf (site : SiteAnalysis) (zones : List Zone) :
    List PipeSegment × List RoutedValve × ℕ :=
  if needsMasterValve (totalGPMOf zones) then
    ([{ id := (nextPipeId 0).2, startX := (backflowPosOf site).x,
        startY := (backflowPosOf site).y, endX := (backflowPosOf site).x + 10,
        endY := (backflowPosOf site).y,
        diameterIn := getMainlineSizeIn (totalGPMOf zones),
        material := "sch40-pvc", type := "mainline", zoneId := none }],
     [{ id := "MV-1", x := (backflowPosOf site).x + 10,
        y := (backflowPosOf site).y, model := (findValve "200-peb").model,
        size := (findValve "200-peb").sizeIn, type := "master",
        zoneId := none }],
     (nextPipeId 0).1)
  else ([], [], 0)

/-- The fixed mainline start x-offset (past the master valve if present). -/
def mainlineStartXOf (site : SiteAnalysis) (zones : List Zone) : ℚ :=
  if needsMasterValve (totalGPMOf zones) then (backflowPosOf site).x + 10
  else (backflowPosOf site).x + 5

/-- `routePipes(siteAnalysis, heads, zones, projectInput)`. -/
def routePipes (sqrtF : ℚ → ℚ) (site : SiteAnalysis)
    (heads : List Head) (zones : List Zone) (_proj : ProjectInput) :
    RoutingResult :=
  let pocPos := pocPosOf site
  let mainlineSize := getMainlineSizeIn (totalGPMOf zones)
  let rpz := findValve "009m2-qt"
  let controllerPos := site.controllerLocation.getD
    ⟨site.nearestBuildingLocation.x, site.nearestBuildingLocation.y + 5⟩
  let routed := zones.foldl
    (routeZone sqrtF heads pocPos (mainlineStartXOf site zones) mainlineSize)
    (mvPartOf site zones)
  { pipes := routed.1, valves := routed.2.1, poc := pocPos,
    backflow := ⟨(backflowPosOf site).x, (backflowPosOf site).y, rpz.model,
      mainlineSize⟩,
    controller := ⟨controllerPos.x, controllerPos.y, "ESP-LXME2"⟩,
    rainSensor := ⟨controllerPos.x + 2, controllerPos.y - 2, "Rain-Clik"⟩ }

/-! ## Material calculation (`src/engine/materialCalc.ts`) -/

/-- `CONTROLLERS[0]` and `SENSORS` entry / fixed item records from
`src/data/materials.ts`, reduced to the fields `calculateMaterials`
reads (name, manufacturer, model). -/
structure NamedItem where
  name : String
  manufacturer : String
  model : String
  deriving DecidableEq, Repr

/-- `CONTROLLERS[0]`. -/
def controllerSpec : NamedItem := ⟨"Controller", "Rain Bird", "ESP-LXME2"⟩

/-- `SENSORS.find(s => s.id === 'rain-clik')!`. -/
def rainSensorSpec : NamedItem := ⟨"Rain Sensor", "Hunter", "Rain-Clik"⟩

/-- `SWING_JOINT`. -/
def SWING_JOINT : NamedItem := ⟨"Swing Joint", "Hunter", "SJ-506"⟩

/-- `VALVE_BOXES.jumbo`. -/
def VALVE_BOX_JUMBO : NamedItem := ⟨"Valve Box - Standard", "Carson", "1419-12"⟩

/-- `WIRE.common` (name, spec string used as the model column). -/
def WIRE_COMMON : String × String := ("Wire - Common", "14 AWG UF, white")

/-- `WIRE.zone`. -/
def WIRE_ZONE : String × String := ("Wire - Zone", "18 AWG UF, color-coded")

/-- `DRIP_KIT`. -/
def DRIP_KIT : NamedItem := ⟨"Drip Zone Kit", "Rain Bird", "XCZ-100-PRB-COM"⟩

/-- The design record handed to `calculateMaterials`
(`Omit<IrrigationDesign, 'materialSchedule'>`). -/
structure PartialDesign where
  heads : List Head
  pipes : List PipeSegment
  zones : List Zone
  valves : List RoutedValve
  controller : PlacedEquip
  backflow : PlacedBackflow
  poc : Point
  rainSensor : PlacedEquip
  zoneSchedule : List Zone
  totalSystemGPM : ℚ
  totalZones : ℕ
  deriving DecidableEq, Repr

/-- One step of the `headCounts` record accumulation (insertion-ordered
JavaScript object keyed by model string). -/
def bumpCount (counts : List (String × ℕ)) (k : String) : List (String × ℕ) :=
  if counts.any (fun p => p.1 = k) then
    counts.map (fun p => if p.1 = k then (p.1, p.2 + 1) else p)
  else counts ++ [(k, 1)]

/-- The `headCounts` record: quick-couplers under the fixed key `44RC`,
all other heads under their model. -/
def headCounts (heads : List Head) : List (String × ℕ) :=
  heads.foldl
    (fun cs h =>
      bumpCount cs (if h.type = "quick-coupler" then "44RC" else h.model)) []

/-- One step of the `pipeLengths` record accumulation.  The source keys the
record by the string `diameter + "in-" + material` and later recovers size
and material with `parseFloat` / `split('-')`; since the key is built from
exactly these two fields, it is modelled by the pair itself. -/
def bumpLen (ls : List ((ℚ × String) × ℚ)) (k : ℚ × String) (len : ℚ) :
    List ((ℚ × String) × ℚ) :=
  if ls.any (fun p => p.1 = k) then
    ls.map (fun p => if p.1 = k then (p.1, p.2 + len) else p)
  else ls ++ [(k, len)]

/-- Pipe lengths aggregated by (diameter, material). -/
def pipeLengths (sqrtF : ℚ → ℚ) (pipes : List PipeSegment) :
    List ((ℚ × String) × ℚ) :=
  pipes.foldl
    (fun ls p =>
      bumpLen ls (p.diameterIn, p.material)
        (distance sqrtF ⟨p.startX, p.startY⟩ ⟨p.endX, p.endY⟩)) []

/-- JavaScript number-to-string for the four pipe diameters the router
emits (used in the pipe line-item description). -/
def sizeLabel (q : ℚ) : String :=
  if q = 2 then "2" else if q = 1.5 then "1.5"
  else if q = 1 then "1" else if q = 0.75 then "0.75" else toString q.num

/-- `calculateMaterials(design)`. -/
def calculateMaterials (sqrtF : ℚ → ℚ) (design : PartialDesign) :
    List MaterialScheduleItem :=
  let headItems := (headCounts design.heads).map (fun mc =>
    match SPRINKLER_HEADS.find? (fun h => h.model = mc.1) with
    | some spec =>
        { item := spec.name, manufacturer := spec.manufacturer, model := mc.1,
          quantity := (mc.2 : ℤ), unit := "EA" }
    | none =>
        { item := mc.1, manufacturer := "", model := mc.1,
          quantity := (mc.2 : ℤ), unit := "EA" })
  let zoneValveCount := (design.valves.filter (fun v => v.type = "zone")).length
  let valve1in := (design.valves.filter
    (fun v => v.type = "zone" ∧ v.size = 1)).length
  let valve1_5in := (design.valves.filter
    (fun v => v.type = "zone" ∧ v.size = 1.5)).length
  let valveItems :=
    (if valve1in > 0 then
      [{ item := (findValve "peb-100").name,
         manufacturer := (findValve "peb-100").manufacturer,
         model := (findValve "peb-100").model, quantity := (valve1in : ℤ),
         unit := "EA" }]
     else []) ++
    (if valve1_5in > 0 then
      [{ item := (findValve "peb-150").name,
         manufacturer := (findValve "peb-150").manufacturer,
         model := (findValve "peb-150").model, quantity := (valve1_5in : ℤ),
         unit := "EA" }]
     else [])
  let masterItems : List MaterialScheduleItem :=
    if needsMasterValve design.totalSystemGPM then
      [{ item := (findValve "200-peb").name,
         manufacturer := (findValve "200-peb").manufacturer,
         model := (findValve "200-peb").model, quantity := 1, unit := "EA" }]
    else []
  let fixedItems : List MaterialScheduleItem :=
    [{ item := (findValve "009m2-qt").name,
       manufacturer := (findValve "009m2-qt").manufacturer,
       model := (findValve "009m2-qt").model, quantity := 1, unit := "EA" },
     { item := controllerSpec.name, manufacturer := controllerSpec.manufacturer,
       model := controllerSpec.model, quantity := 1, unit := "EA" },
     { item := rainSensorSpec.name, manufacturer := rainSensorSpec.manufacturer,
       model := rainSensorSpec.model, quantity := 1, unit := "EA" }]
  let pipeItems := (pipeLengths sqrtF design.pipes).map (fun kl =>
    let matName :=
      if kl.1.2 = "sch40-pvc" then "Sch. 40 PVC" else "Class 200 PVC"
    { item := matName ++ " - " ++ sizeLabel kl.1.1 ++ "\" pipe",
      manufacturer := "", model := "", quantity := ⌈kl.2⌉, unit := "LF" })
  let sprinklerHeadCount := (design.heads.filter
    (fun h => h.type ≠ "quick-coupler" ∧ h.type ≠ "drip")).length
  let swingItems : List MaterialScheduleItem :=
    [{ item := SWING_JOINT.name, manufacturer := SWING_JOINT.manufacturer,
       model := SWING_JOINT.model, quantity := (sprinklerHeadCount : ℤ),
       unit := "EA" }]
  let boxItems : List MaterialScheduleItem :=
    [{ item := VALVE_BOX_JUMBO.name,
       manufacturer := VALVE_BOX_JUMBO.manufacturer,
       model := VALVE_BOX_JUMBO.model,
       quantity := ⌈(zoneValveCount : ℚ) / 4⌉, unit := "EA" }]
  let totalWireRun := (design.pipes.filter (fun p => p.type = "mainline")).foldl
    (fun s p => s + distance sqrtF ⟨p.startX, p.startY⟩ ⟨p.endX, p.endY⟩) 0
  let wireItems : List MaterialScheduleItem :=
    [{ item := WIRE_COMMON.1, manufacturer := "", model := WIRE_COMMON.2,
       quantity := ⌈totalWireRun⌉, unit := "LF" },
     { item := WIRE_ZONE.1, manufacturer := "", model := WIRE_ZONE.2,
       quantity := ⌈totalWireRun * (design.totalZones : ℚ)⌉, unit := "LF" }]
  let dripZones := design.zones.filter (fun z => z.headType = "drip")
  let dripItems : List MaterialScheduleItem :=
    if dripZones.length > 0 then
      [{ item := DRIP_KIT.name, manufacturer := DRIP_KIT.manufacturer,
         model := DRIP_KIT.model, quantity := (dripZones.length : ℤ),
         unit := "EA" }]
    else []
  headItems ++ valveItems ++ masterItems ++ fixedItems ++ pipeItems ++
    swingItems ++ boxItems ++ wireItems ++ dripItems

/-! ## Pipeline composition (`generateIrrigationDesign`) -/

/-- The full design record. -/
structure IrrigationDesign where
  heads : List Head
  pipes : List PipeSegment
  zones : List Zone
  valves : List RoutedValve
  controller : PlacedEquip
  backflow : PlacedBackflow
  poc : Point
  rainSensor : PlacedEquip
  zoneSchedule : List Zone
  totalSystemGPM : ℚ
  totalZones : ℕ
  materialSchedule : List MaterialScheduleItem
  deriving DecidableEq, Repr

/-- The `partialDesign` record of `generateIrrigationDesign`: Head
Placement, Zone Assignment and Pipe Routing assembled with the rounded
total system GPM. -/
def pdOf (sqrtF : ℚ → ℚ) (piF : ℚ) (site : SiteAnalysis)
    (proj : ProjectInput) : PartialDesign :=
  let rawHeads := placeAllHeads site proj
  let az := assignZones piF rawHeads
  let zones := az.1
  let updatedHeads := az.2
  let routing := routePipes sqrtF site updatedHeads zones proj
  let totalSystemGPM := zones.foldl (fun s z => s + z.totalGPM) 0
  { heads := updatedHeads, pipes := routing.pipes, zones := zones,
    valves := routing.valves, controller := routing.controller,
    backflow := routing.backflow, poc := routing.poc,
    rainSensor := routing.rainSensor, zoneSchedule := zones,
    totalSystemGPM := roundTo1 totalSystemGPM, totalZones := zones.length }

/-- `generateIrrigationDesign(siteAnalysis, projectInput)`: the partial
design plus the material schedule computed from it. -/
def generateIrrigationDesign (sqrtF : ℚ → ℚ) (piF : ℚ) (site : SiteAnalysis)
    (proj : ProjectInput) : IrrigationDesign :=
  let pd := pdOf sqrtF piF site proj
  { heads := pd.heads, pipes := pd.pipes, zones := pd.zones,
    valves := pd.valves, controller := pd.controller,
    backflow := pd.backflow, poc := pd.poc,
    rainSensor := pd.rainSensor, zoneSchedule := pd.zoneSchedule,
    totalSystemGPM := pd.totalSystemGPM,
    totalZones := pd.totalZones,
    materialSchedule := calculateMaterials sqrtF pd }

/-! ## Claim C6 : grid generation -/

/-! ## Concrete inputs and specification predicates used by the claim theorems -/

/-- A concrete bed zone with dominant dimension 30 ft (failing input). -/
def bedZone30 : IrrigableZone :=
  { id := "B1", type := "bed", widthFt := 30, lengthFt := 30, areaFt2 := 900,
    exposure := "full-sun", centerX := 15, centerY := 15, boundaryPoints := [] }

/-- The full-circle GPM of a head, recovered from the catalog by model. -/
def fullCircleGPM (model : String) : ℚ :=
  ((SPRINKLER_HEADS.find? (fun s => s.model = model)).getD
    defaultHeadSpec).gpmAtDefaultRadius

/-- The arc/GPM invariant for one placed head. -/
def GPMOk (h : Head) : Prop := h.gpm = fullCircleGPM h.model * (h.arc / 360)

/-- The quick-coupler head record minted at position `pos` with id `hid`. -/
def mkQCHead (hid : String) (pos : Point) : Head :=
  { id := hid, x := pos.x, y := pos.y, type := "quick-coupler",
    model := (findHead "44rc").model,
    manufacturer := (findHead "44rc").manufacturer, arc := 0,
    radiusFt := 0, gpm := 0, psi := 0, nozzle := "", zoneId := "" }

/-- A concrete 40 ft × 40 ft turf zone used by witnesses. -/
def turf40 : IrrigableZone :=
  { id := "T1", type := "turf", widthFt := 40, lengthFt := 40, areaFt2 := 1600,
    exposure := "full-sun", centerX := 20, centerY := 20, boundaryPoints := [] }

/-- A concrete site with a single 40 ft × 40 ft turf zone. -/
def site0 : SiteAnalysis :=
  { propertyWidthFt := 100, propertyLengthFt := 80, turfZones := [turf40],
    bedZones := [], narrowStrips := [], waterSourceLocation := none,
    controllerLocation := none, nearestBuildingLocation := ⟨50, 10⟩ }

/-- A concrete commercial project input. -/
def proj0 : ProjectInput :=
  { projectName := "P", waterSupplySize := 1, staticPressurePSI := 60,
    soilType := "loam", turfType := "bermudagrass",
    applicationType := "commercial" }

/-- The first head placed on `site0`: a 90° PGP-ADJ rotor at the corner. -/
def c3Head : Head :=
  { id := "H-1", x := 0, y := 0, type := "rotor", model := "PGP-ADJ",
    manufacturer := "Hunter", arc := 90, radiusFt := 25, gpm := 0.55,
    psi := 45, nozzle := "#2.0", zoneId := "" }

/-- The greedy chunks of the packing loop (including the trailing flush). -/
def chunksAux (maxGPM : ℚ) : List Head → List Head → ℚ → List (List Head)
  | [], cur, _ => if cur.isEmpty then [] else [cur]
  | h :: rest, cur, curGPM =>
      if curGPM + h.gpm > maxGPM ∧ ¬ cur.isEmpty then
        cur :: chunksAux maxGPM rest [h] h.gpm
      else chunksAux maxGPM rest (cur ++ [h]) (curGPM + h.gpm)

/-- The zones created from consecutive chunks, numbered from `n`. -/
def numberZones (piF : ℚ) (k : String) : ℕ → List (List Head) → List Zone
  | _, [] => []
  | n, c :: cs => createZone piF n c k :: numberZones piF k (n + 1) cs

/-- The successive `assignHeadsToZone` updates for consecutive chunks. -/
def applyZoneIds (piF : ℚ) (k : String) :
    ℕ → List Head → List (List Head) → List Head
  | _, upd, [] => upd
  | n, upd, c :: cs =>
      applyZoneIds piF k (n + 1)
        (assignHeadsToZone upd c (createZone piF n c k).id) cs

/-- The characterization of every zone produced by Zone Assignment: it is a
`createZone` of a nonempty chunk of same-kind, non-quick-coupler heads of
the input, and any chunk of two or more heads fits the lateral capacity. -/
def ZoneSpec (piF : ℚ) (heads : List Head) (z : Zone) : Prop :=
  ∃ (k : String) (ms : List Head), ms ≠ [] ∧ k ≠ "quick-coupler" ∧
    z = createZone piF z.number ms k ∧
    (∀ h ∈ ms, h ∈ heads ∧ h.type = k) ∧
    (2 ≤ ms.length →
      (ms.map (·.gpm)).sum ≤ getMaxGPMForLateral (getLateralSizeIn k))

/-- A concrete single spray head (radius 12 ft, 1.5 GPM). -/
def sprayHead : Head :=
  { id := "H-1", x := 0, y := 0, type := "spray", model := "1804-SAM-PRS",
    manufacturer := "Rain Bird", arc := 360, radiusFt := 12, gpm := 1.5,
    psi := 30, nozzle := "15-SST", zoneId := "" }

/-- The zone `assignZones` builds from `[sprayHead]` (precipitation rate
`1.5 × 96.25 / 144` rounds to `1.00`, runtime rounds to 30 minutes). -/
def zoneOfSpray : Zone :=
  { id := "Z-1", number := 1, headType := "spray", exposure := "full-sun",
    heads := ["H-1"], totalGPM := 1.5, precipRateInPerHr := 1,
    runtimeMinutes := 30, color := "#DC2626", valveModel := "PEB-100",
    valveSize := 1 }

/-- `b` agrees with `a` on every field except possibly `zoneId`. -/
def ZOnly (a b : Head) : Prop := b = { a with zoneId := b.zoneId }

/-- Lookup of a head by id (`findIndex`-style first match). -/
def byId (u : List Head) (hid : String) : Option Head :=
  u.find? (fun h => h.id = hid)

/-- The frame specification of `assignZones` (for duplicate-free ids):
(1) the returned head list matches the input pointwise except `zoneId`;
(2) the zones' member-id lists are, jointly, a permutation of exactly the
non-quick-coupler head ids; (3) every non-quick-coupler head is listed by
exactly one zone and its entry's `zoneId` is that zone's id; (4) every
quick-coupler head's entry is returned completely unchanged (so an empty
input `zoneId` stays empty) and no zone lists it. -/
def AssignFrameSpec (piF : ℚ) (heads : List Head) : Prop :=
  List.Forall₂ ZOnly heads (assignZones piF heads).2 ∧
  ((((assignZones piF heads).1.map (·.heads)).flatten).Perm
    ((heads.filter (fun h => h.type ≠ "quick-coupler")).map (·.id))) ∧
  (∀ h0 ∈ heads, h0.type ≠ "quick-coupler" →
    ∃ z ∈ (assignZones piF heads).1, h0.id ∈ z.heads ∧
      byId (assignZones piF heads).2 h0.id =
        some { h0 with zoneId := z.id } ∧
      ∀ z2 ∈ (assignZones piF heads).1, h0.id ∈ z2.heads → z2 = z) ∧
  (∀ h0 ∈ heads, h0.type = "quick-coupler" →
    byId (assignZones piF heads).2 h0.id = some h0 ∧
      ∀ z ∈ (assignZones piF heads).1, h0.id ∉ z.heads)

/-- Two heads sharing the id `H-1` (violating the id uniqueness Head
Placement guarantees). -/
def dupHeadA : Head :=
  { id := "H-1", x := 0, y := 0, type := "spray", model := "1804-SAM-PRS",
    manufacturer := "Rain Bird", arc := 360, radiusFt := 12, gpm := 1,
    psi := 30, nozzle := "15-SST", zoneId := "" }

/-- The second head with the duplicated id. -/
def dupHeadB : Head :=
  { id := "H-1", x := 5, y := 0, type := "spray", model := "1804-SAM-PRS",
    manufacturer := "Rain Bird", arc := 360, radiusFt := 12, gpm := 1,
    psi := 30, nozzle := "15-SST", zoneId := "" }

/-- The seven models any placed head can carry. -/
def allowedModels : List String :=
  ["I-40-04-SS", "5004-PC-SAM", "PGP-ADJ", "1804-SAM-PRS",
   "MP Rotator MP3000", "HE-VAN-15-SST", "44RC"]

/-- **C6.**  For all non-negative origin and extent and positive spacings,
`generateGridPoints` enumerates `ceil(width/spacingX)+1` columns by
`ceil(height/spacingY)+1` rows (the `Int.toNat` clamps are inert), odd rows
are offset by `spacingX/2` exactly for the `"triangular"` pattern, every
candidate whose coordinate strictly exceeds `origin + extent` is dropped
(membership characterization), and in particular
`generateGridPoints(0,0,10,10,5,5,'square')` yields exactly 9 points. -/
theorem C6_generateGridPoints (ox oy w h sx sy : ℚ) (pattern : String)
    (hox : 0 ≤ ox) (hoy : 0 ≤ oy) (hw : 0 ≤ w) (hh : 0 ≤ h)
    (hsx : 0 < sx) (hsy : 0 < sy) :
    (((⌈w / sx⌉ + 1).toNat : ℤ) = ⌈w / sx⌉ + 1 ∧
      ((⌈h / sy⌉ + 1).toNat : ℤ) = ⌈h / sy⌉ + 1) ∧
    (∀ p : Point,
        p ∈ generateGridPoints ox oy w h sx sy pattern ↔
          ∃ row < (⌈h / sy⌉ + 1).toNat, ∃ col < (⌈w / sx⌉ + 1).toNat,
            p = ⟨ox + (col : ℚ) * sx +
                  (if pattern = "triangular" ∧ row % 2 = 1 then sx / 2 else 0),
                 oy + (row : ℚ) * sy⟩ ∧
            p.x ≤ ox + w ∧ p.y ≤ oy + h) ∧
    (generateGridPoints 0 0 10 10 5 5 "square").length = 9 := by
  refine ⟨⟨?_, ?_⟩, ?_, ?_⟩
  · have : (0:ℤ) ≤ ⌈w / sx⌉ := Int.ceil_nonneg (by positivity)
    omega
  · have : (0:ℤ) ≤ ⌈h / sy⌉ := Int.ceil_nonneg (by positivity)
    omega
  · intro p
    rw [generateGridPoints, List.mem_flatMap]
    constructor
    · rintro ⟨row, hrow, hp⟩
      rw [List.mem_filterMap] at hp
      obtain ⟨col, hcol, hsome⟩ := hp
      rw [Option.ite_none_right_eq_some, Option.some_inj] at hsome
      obtain ⟨hbound, rfl⟩ := hsome
      exact ⟨row, List.mem_range.1 hrow, col, List.mem_range.1 hcol, rfl,
        hbound.1, hbound.2⟩
    · rintro ⟨row, hrow, col, hcol, rfl, hx, hy⟩
      refine ⟨row, List.mem_range.2 hrow, ?_⟩
      rw [List.mem_filterMap]
      refine ⟨col, List.mem_range.2 hcol, ?_⟩
      rw [Option.ite_none_right_eq_some, Option.some_inj]
      exact ⟨⟨hx, hy⟩, rfl⟩
  · with_unfolding_all decide

/-- Witness for C6 at the concrete instance from the claim. -/
theorem C6_generateGridPoints_witness :
    ((0:ℚ) ≤ 0 ∧ (0:ℚ) ≤ 10 ∧ (0:ℚ) < 5) ∧
      (generateGridPoints 0 0 10 10 5 5 "square").length = 9 :=
  ⟨⟨le_refl 0, by norm_num, by norm_num⟩,
    (C6_generateGridPoints 0 0 10 10 5 5 "square" (le_refl 0) (le_refl 0)
      (by norm_num) (by norm_num) (by norm_num) (by norm_num)).2.2⟩

/-! ## Claim C1 : the drip selection path is dead code

The spec requires beds / tree-rings / planters with dominant dimension over
21 ft to select drip equipment; `selectHeadForZone` instead returns the
`1804-SAM-PRS` spray head on that branch, so `placeDripZone` (which
implements exactly the behaviour the spec describes) is unreachable. -/

/-- **C1 (code-bug evidence).**  At the failing input (a bed zone with
dominant dimension 30 ft > 21 ft), `selectHeadForZone` returns the
`1804-SAM-PRS` head of category `"spray"`, not a drip head, and Head
Placement consequently emits a 3×3 grid of nine spray heads instead of the
single centroid drip emitter the claim (and the dead `placeDripZone` path)
describe. -/
theorem C1_bed_over21_selects_spray :
    (selectHeadForZone "bed" 30 false).category = "spray" ∧
    (selectHeadForZone "bed" 30 false).model = "1804-SAM-PRS" ∧
    (selectHeadForZone "bed" 30 false).category ≠ "drip" ∧
    (placeHeadsInZone 0 bedZone30 false).2.length = 9 ∧
    (∀ hd ∈ (placeHeadsInZone 0 bedZone30 false).2, hd.type = "spray") := by
  with_unfolding_all decide

/-! ## Claim C3 : arc / GPM consistency -/

/-- Generic accumulator lemma: a fold whose step only ever appends list
elements satisfying `P` preserves `P`-membership. -/
theorem mem_foldl_of_step {σ α β : Type} (proj : σ → List β)
    (P : β → Prop) (step : σ → α → σ)
    (hstep : ∀ s a h, h ∈ proj (step s a) → h ∈ proj s ∨ P h) :
    ∀ (l : List α) (s : σ) (h : β),
      h ∈ proj (l.foldl step s) → h ∈ proj s ∨ P h := by
  intro l
  induction l with
  | nil => intro s h hm; exact Or.inl hm
  | cons a t ih =>
      intro s h hm
      rcases ih (step s a) h hm with hin | hp
      · exact hstep s a h hin
      · exact Or.inr hp

/-- `selectHeadForZone` always returns one of six fixed catalog entries. -/
theorem selectHeadForZone_mem (zt : String) (md : ℚ) (af : Bool) :
    selectHeadForZone zt md af ∈
      [findHead "he-van-15-sst", findHead "mp3000", findHead "1804-sam-prs",
       findHead "i-40-04-ss", findHead "5004-pc-sam", findHead "pgp-adj"] := by
  unfold selectHeadForZone
  split_ifs <;> simp

/-- The selected head is never of category `"drip"` (nor quick-coupler). -/
theorem selectHeadForZone_category (zt : String) (md : ℚ) (af : Bool) :
    (selectHeadForZone zt md af).category ≠ "drip" ∧
      (selectHeadForZone zt md af).category ≠ "quick-coupler" := by
  have hm := selectHeadForZone_mem zt md af
  simp only [List.mem_cons, List.not_mem_nil, or_false] at hm
  rcases hm with h | h | h | h | h | h <;> rw [h] <;>
    exact ⟨by with_unfolding_all decide, by with_unfolding_all decide⟩

/-- Looking the selected head's model back up in the catalog recovers its
full-circle GPM (the six models are pairwise distinct in the catalog). -/
theorem selectHeadForZone_lookup (zt : String) (md : ℚ) (af : Bool) :
    fullCircleGPM (selectHeadForZone zt md af).model =
      (selectHeadForZone zt md af).gpmAtDefaultRadius := by
  have hm := selectHeadForZone_mem zt md af
  simp only [List.mem_cons, List.not_mem_nil, or_false] at hm
  rcases hm with h | h | h | h | h | h <;> rw [h] <;> with_unfolding_all decide

/-- Membership lemma for `placeHeadsInZone`: since the drip branch is
unreachable, every emitted head is a `mkGridHead` of the selected spec. -/
theorem placeHeadsInZone_forall (P : Head → Prop) (cnt : ℕ)
    (zone : IrrigableZone) (ath : Bool)
    (hgrid : ∀ hid bb pt,
      P (mkGridHead hid
          (selectHeadForZone zone.type (max zone.widthFt zone.lengthFt) ath)
          bb pt)) :
    ∀ h ∈ (placeHeadsInZone cnt zone ath).2, P h := by
  intro h hm
  simp only [placeHeadsInZone] at hm
  rw [if_neg (selectHeadForZone_category zone.type
    (max zone.widthFt zone.lengthFt) ath).1] at hm
  have := mem_foldl_of_step (fun s : ℕ × List Head => s.2) P
    (gridStep (selectHeadForZone zone.type (max zone.widthFt zone.lengthFt) ath)
      (zoneBBox zone) zone) ?_ _ (cnt, []) h hm
  · rcases this with hin | hp
    · simp at hin
    · exact hp
  · intro s a hh hmem
    rw [gridStep] at hmem
    by_cases hb : gridPointInBounds zone a
    · rw [if_pos hb] at hmem
      rcases List.mem_append.1 hmem with hin | hnew
      · exact Or.inl hin
      · rcases List.mem_singleton.1 hnew with rfl
        exact Or.inr (hgrid _ _ _)
    · rw [if_neg hb] at hmem
      exact Or.inl hmem

/-- Membership lemma for `quickCouplerHeads`. -/
theorem quickCouplerHeads_forall (P : Head → Prop) (cnt : ℕ)
    (site : SiteAnalysis) (hqc : ∀ hid pos, P (mkQCHead hid pos)) :
    ∀ h ∈ (quickCouplerHeads cnt site).2, P h := by
  intro h hm
  rw [quickCouplerHeads] at hm
  have := mem_foldl_of_step (fun s : ℕ × List Head => s.2) P
    (fun acc pos => ((nextHeadId acc.1).1, acc.2 ++ [mkQCHead (nextHeadId acc.1).2 pos]))
    ?_ _ (cnt, []) h hm
  · rcases this with hin | hp
    · simp at hin
    · exact hp
  · intro s a hh hmem
    rcases List.mem_append.1 hmem with hin | hnew
    · exact Or.inl hin
    · rcases List.mem_singleton.1 hnew with rfl
      exact Or.inr (hqc _ _)

/-- Membership lemma for the whole head-placement stage: a property holding
of every grid head and every quick-coupler head holds of every placed
head. -/
theorem placeAllHeads_forall (P : Head → Prop) (site : SiteAnalysis)
    (proj : ProjectInput)
    (hz : ∀ cnt zone ath, ∀ h ∈ (placeHeadsInZone cnt zone ath).2, P h)
    (hqc : ∀ hid pos, P (mkQCHead hid pos)) :
    ∀ h ∈ placeAllHeads site proj, P h := by
  intro h hm
  simp only [placeAllHeads] at hm
  have hstep : ∀ (ath : Bool) (s : ℕ × List Head) (zone : IrrigableZone)
      (hh : Head), hh ∈ (headsStep ath s zone).2 → hh ∈ s.2 ∨ P hh := by
    intro ath s zone hh hmem
    rw [headsStep] at hmem
    rcases List.mem_append.1 hmem with hin | hnew
    · exact Or.inl hin
    · exact Or.inr (hz s.1 zone ath hh hnew)
  set isAthletic := proj.applicationType = "athletic-field" with hath
  set acc1 := site.turfZones.foldl (headsStep isAthletic) (0, []) with ha1
  set acc2 := site.bedZones.foldl (headsStep false) acc1 with ha2
  set acc3 := site.narrowStrips.foldl (headsStep false) acc2 with ha3
  have key : h ∈ acc3.2 → P h := by
    intro h3
    rcases mem_foldl_of_step (fun s : ℕ × List Head => s.2) P (headsStep false)
      (hstep false) site.narrowStrips acc2 h h3 with h2 | hp
    · rcases mem_foldl_of_step (fun s : ℕ × List Head => s.2) P (headsStep false)
        (hstep false) site.bedZones acc1 h h2 with h1 | hp
      · rcases mem_foldl_of_step (fun s : ℕ × List Head => s.2) P
          (headsStep isAthletic) (hstep isAthletic) site.turfZones (0, []) h h1
          with h0 | hp
        · simp at h0
        · exact hp
      · exact hp
    · exact hp
  by_cases hA : isAthletic
  · rw [if_pos hA] at hm
    rcases List.mem_append.1 hm with h3 | hq
    · exact key h3
    · exact quickCouplerHeads_forall P acc3.1 site hqc h hq
  · rw [if_neg hA] at hm
    exact key hm

/-- **C3.**  Every head produced by the head-placement stage has
`gpm = fullCircleGPM(model) × (arc / 360)`: grid heads by construction
(`adjustGPMForArc`), quick-couplers trivially (all three factors zero), and
the drip branch - which would violate the invariant - is unreachable. -/
theorem C3_arc_gpm_consistency (site : SiteAnalysis) (proj : ProjectInput) :
    ∀ h ∈ placeAllHeads site proj,
      h.gpm = fullCircleGPM h.model * (h.arc / 360) := by
  refine placeAllHeads_forall GPMOk site proj ?_ ?_
  · intro cnt zone ath
    refine placeHeadsInZone_forall GPMOk cnt zone ath ?_
    intro hid bb pt
    show (mkGridHead _ _ _ _).gpm = _
    rw [mkGridHead]
    simp only [adjustGPMForArc]
    rw [selectHeadForZone_lookup]
  · intro hid pos
    show (mkQCHead hid pos).gpm = _
    rw [mkQCHead]
    show (0 : ℚ) = fullCircleGPM (findHead "44rc").model * (0 / 360)
    with_unfolding_all decide

/-- Witness for C3: the first head placed on `site0` satisfies the
invariant: `0.55 = 2.2 × (90/360)`. -/
theorem C3_arc_gpm_consistency_witness :
    c3Head ∈ placeAllHeads site0 proj0 ∧
      c3Head.gpm = fullCircleGPM c3Head.model * (c3Head.arc / 360) := by
  constructor
  · with_unfolding_all decide
  · exact C3_arc_gpm_consistency site0 proj0 c3Head (by with_unfolding_all decide)

/-! ## A closed form for the greedy packing loop

`packGroup` is decomposed into the list of greedy chunks (`chunksAux`), the
zones they become (`numberZones`), and the sequential head updates
(`applyZoneIds`); `packGroup_eq` proves the decomposition exact. -/

/-- `packGroup` equals its chunk decomposition. -/
theorem packGroup_eq (piF maxG : ℚ) (k : String) :
    ∀ (hs cur : List Head) (g : ℚ) (acc : AZAcc),
      packGroup piF maxG k acc hs cur g =
        { zones := acc.zones ++
            numberZones piF k acc.num (chunksAux maxG hs cur g),
          num := acc.num + (chunksAux maxG hs cur g).length,
          upd := applyZoneIds piF k acc.num acc.upd (chunksAux maxG hs cur g) } := by
  intro hs
  induction hs with
  | nil =>
      intro cur g acc
      simp only [packGroup, chunksAux]
      by_cases hc : cur.isEmpty
      · simp [hc, numberZones, applyZoneIds]
      · simp [hc, numberZones, applyZoneIds, closeZone]
  | cons h rest ih =>
      intro cur g acc
      simp only [packGroup, chunksAux]
      by_cases hcond : g + h.gpm > maxG ∧ ¬ cur.isEmpty
      · rw [if_pos hcond, if_pos hcond, ih, closeZone]
        simp only [numberZones, applyZoneIds, List.length_cons,
          List.append_assoc, List.singleton_append, AZAcc.mk.injEq]
        refine ⟨trivial, by omega, trivial⟩
      · rw [if_neg hcond, if_neg hcond, ih]

/-- A running `foldl (+ gpm)` is the starting value plus the mapped sum. -/
theorem gpmFold_eq (l : List Head) :
    ∀ a : ℚ, l.foldl (fun s h => s + h.gpm) a = a + (l.map (·.gpm)).sum := by
  induction l with
  | nil => intro a; simp
  | cons h t ih => intro a; simp [ih, add_assoc]

/-- The chunks flatten back to the input: nothing is lost or duplicated. -/
theorem chunksAux_join (maxG : ℚ) :
    ∀ (hs cur : List Head) (g : ℚ),
      (chunksAux maxG hs cur g).flatten = cur ++ hs := by
  intro hs
  induction hs with
  | nil =>
      intro cur g
      simp only [chunksAux]
      by_cases hc : cur.isEmpty
      · simp [hc, List.isEmpty_iff.1 hc]
      · simp [hc]
  | cons h rest ih =>
      intro cur g
      simp only [chunksAux]
      by_cases hcond : g + h.gpm > maxG ∧ ¬ cur.isEmpty
      · rw [if_pos hcond]
        simp [ih]
      · rw [if_neg hcond]
        simp [ih]

/-- Every emitted chunk is nonempty. -/
theorem chunksAux_ne_nil (maxG : ℚ) :
    ∀ (hs cur : List Head) (g : ℚ) (c : List Head),
      c ∈ chunksAux maxG hs cur g → c ≠ [] := by
  intro hs
  induction hs with
  | nil =>
      intro cur g c hm
      simp only [chunksAux] at hm
      by_cases hc : cur.isEmpty
      · simp [hc] at hm
      · rw [if_neg hc] at hm
        rcases List.mem_singleton.1 hm with rfl
        exact fun hnil => hc (by simp [hnil])
  | cons h rest ih =>
      intro cur g c hm
      simp only [chunksAux] at hm
      by_cases hcond : g + h.gpm > maxG ∧ ¬ cur.isEmpty
      · rw [if_pos hcond] at hm
        rcases List.mem_cons.1 hm with rfl | hm2
        · exact fun hnil => hcond.2 (by simp [hnil])
        · exact ih [h] h.gpm c hm2
      · rw [if_neg hcond] at hm
        exact ih (cur ++ [h]) (g + h.gpm) c hm

/-- Greedy capacity invariant: every chunk with at least two heads has
total GPM within `maxG` (given the invariant holds of the current chunk
and the running total is exact). -/
theorem chunksAux_cap (maxG : ℚ) :
    ∀ (hs cur : List Head) (g : ℚ),
      g = (cur.map (·.gpm)).sum →
      (2 ≤ cur.length → (cur.map (·.gpm)).sum ≤ maxG) →
      ∀ c ∈ chunksAux maxG hs cur g,
        2 ≤ c.length → (c.map (·.gpm)).sum ≤ maxG := by
  intro hs
  induction hs with
  | nil =>
      intro cur g hg hinv c hm
      simp only [chunksAux] at hm
      by_cases hc : cur.isEmpty
      · simp [hc] at hm
      · rw [if_neg hc] at hm
        rcases List.mem_singleton.1 hm with rfl
        exact hinv
  | cons h rest ih =>
      intro cur g hg hinv c hm
      simp only [chunksAux] at hm
      by_cases hcond : g + h.gpm > maxG ∧ ¬ cur.isEmpty
      · rw [if_pos hcond] at hm
        rcases List.mem_cons.1 hm with rfl | hm2
        · exact hinv
        · refine ih [h] h.gpm (by simp) (by simp) c hm2
      · rw [if_neg hcond] at hm
        refine ih (cur ++ [h]) (g + h.gpm) (by simp [hg]) ?_ c hm
        intro hlen
        rcases not_and_or.1 hcond with hle | hne
        · push_neg at hle
          simpa [hg] using hle
        · rw [not_not, List.isEmpty_iff] at hne
          subst hne
          simp at hlen

/-- The `number` field of a created zone. -/
theorem createZone_number (piF : ℚ) (n : ℕ) (ms : List Head) (k : String) :
    (createZone piF n ms k).number = n := rfl

/-- The `headType` field of a created zone. -/
theorem createZone_headType (piF : ℚ) (n : ℕ) (ms : List Head) (k : String) :
    (createZone piF n ms k).headType = k := rfl

/-- The member-id list of a created zone. -/
theorem createZone_heads (piF : ℚ) (n : ℕ) (ms : List Head) (k : String) :
    (createZone piF n ms k).heads = ms.map (·.id) := rfl

/-- The (rounded) total GPM of a created zone. -/
theorem createZone_totalGPM (piF : ℚ) (n : ℕ) (ms : List Head) (k : String) :
    (createZone piF n ms k).totalGPM = roundTo1 ((ms.map (·.gpm)).sum) := by
  simp only [createZone, gpmFold_eq, zero_add]

/-- The stored precipitation rate of a created zone. -/
theorem createZone_precip (piF : ℚ) (n : ℕ) (ms : List Head) (k : String) :
    (createZone piF n ms k).precipRateInPerHr =
      roundTo2 (if estimateZoneArea piF ms > 0 then
        ((ms.map (·.gpm)).sum * 96.25) / estimateZoneArea piF ms else 0) := by
  simp only [createZone, gpmFold_eq, zero_add]

/-- Membership in `numberZones`: each zone is a `createZone` of a chunk. -/
theorem mem_numberZones (piF : ℚ) (k : String) :
    ∀ (cs : List (List Head)) (n : ℕ) (z : Zone),
      z ∈ numberZones piF k n cs →
        ∃ (m : ℕ) (ms : List Head), ms ∈ cs ∧ z = createZone piF m ms k := by
  intro cs
  induction cs with
  | nil => intro n z hm; simp [numberZones] at hm
  | cons c ct ih =>
      intro n z hm
      rcases List.mem_cons.1 hm with rfl | hm2
      · exact ⟨n, c, List.mem_cons_self c ct, rfl⟩
      · obtain ⟨m, ms, hms, hz⟩ := ih (n + 1) z hm2
        exact ⟨m, ms, List.mem_cons_of_mem c hms, hz⟩

/-- Every zone returned by `assignZones` satisfies `ZoneSpec`. -/
theorem assignZones_zones_spec (piF : ℚ) (heads : List Head) :
    ∀ z ∈ (assignZones piF heads).1, ZoneSpec piF heads z := by
  intro z hm
  simp only [assignZones] at hm
  have hres := mem_foldl_of_step (fun a : AZAcc => a.zones) (ZoneSpec piF heads)
    (azFold piF heads) ?_ (groupKeys heads) ⟨[], 1, heads⟩ z hm
  · rcases hres with h0 | hp
    · simp at h0
    · exact hp
  · intro acc k zz hmem
    rw [azFold] at hmem
    by_cases hk : k = "quick-coupler"
    · rw [if_pos hk] at hmem
      exact Or.inl hmem
    · rw [if_neg hk, packGroup_eq] at hmem
      rcases List.mem_append.1 hmem with hin | hnew
      · exact Or.inl hin
      · right
        obtain ⟨m, ms, hms, hz⟩ := mem_numberZones piF k _ _ _ hnew
        have hnum : zz.number = m := by rw [hz, createZone_number]
        refine ⟨k, ms, chunksAux_ne_nil _ _ _ _ _ hms, hk, ?_, ?_, ?_⟩
        · rw [hnum, ← hz]
        · intro h hh
          have hj : h ∈ (chunksAux (getMaxGPMForLateral (getLateralSizeIn k))
              (heads.filter (fun h2 => h2.type = k)) [] 0).flatten :=
            List.mem_flatten.2 ⟨ms, hms, hh⟩
          rw [chunksAux_join] at hj
          simp only [List.nil_append, List.mem_filter, decide_eq_true_eq] at hj
          exact hj
        · exact chunksAux_cap _ _ _ _ (by simp) (by simp) ms hms

/-! ## Rounding lemmas -/

/-- `jsRound` overshoots by at most one half. -/
theorem jsRound_le (q : ℚ) : (jsRound q : ℚ) ≤ q + 1/2 := Int.floor_le _

/-- `jsRound` is monotone. -/
theorem jsRound_mono {q r : ℚ} (h : q ≤ r) : jsRound q ≤ jsRound r :=
  Int.floor_le_floor (by linarith)

/-- Rounding to one decimal overshoots by at most `1/20`. -/
theorem roundTo1_le (q : ℚ) : roundTo1 q ≤ q + 1/20 := by
  have := jsRound_le (q * 10)
  rw [roundTo1]
  linarith

/-- Rounding to one decimal is monotone. -/
theorem roundTo1_mono {q r : ℚ} (h : q ≤ r) : roundTo1 q ≤ roundTo1 r := by
  have : (jsRound (q * 10) : ℚ) ≤ (jsRound (r * 10) : ℚ) := by
    exact_mod_cast jsRound_mono (by linarith)
  rw [roundTo1, roundTo1]
  linarith

/-- `jsRound` evaluates to `n` when `q + 1/2` lies in `[n, n+1)`. -/
theorem jsRound_of_bounds (q : ℚ) (n : ℤ) (h1 : (n : ℚ) ≤ q + 1/2)
    (h2 : q + 1/2 < (n : ℚ) + 1) : jsRound q = n := by
  rw [jsRound]
  exact Int.floor_eq_iff.2 ⟨h1, by linarith⟩

/-- The lateral capacities are fixed points of `roundTo1`. -/
theorem roundTo1_maxGPM (x : ℚ) :
    roundTo1 (getMaxGPMForLateral x) = getMaxGPMForLateral x := by
  rw [getMaxGPMForLateral]
  split_ifs
  · rw [roundTo1, jsRound_of_bounds (22 * 10) 220 (by norm_num) (by norm_num)]
    norm_num
  · rw [roundTo1, jsRound_of_bounds (15 * 10) 150 (by norm_num) (by norm_num)]
    norm_num

/-- Both lateral capacities are at least 15. -/
theorem maxGPM_ge_15 (x : ℚ) : 15 ≤ getMaxGPMForLateral x := by
  rw [getMaxGPMForLateral]
  split_ifs <;> norm_num

/-! ## Claim C5 : zone kind homogeneity -/

/-- **C5.**  Every zone produced by Zone Assignment is homogeneous: its
member heads (the heads whose ids it lists) all carry the zone's head
kind, none of them is a quick-coupler, and the zone's own head kind is
never quick-coupler. -/
theorem C5_zone_kind_homogeneity (piF : ℚ) (heads : List Head) :
    ∀ z ∈ (assignZones piF heads).1,
      z.headType ≠ "quick-coupler" ∧
      ∃ ms : List Head, ms ≠ [] ∧ z.heads = ms.map (·.id) ∧
        ∀ h ∈ ms, h ∈ heads ∧ h.type = z.headType ∧
          h.type ≠ "quick-coupler" := by
  intro z hm
  obtain ⟨k, ms, hne, hk, hz, hmem, _⟩ := assignZones_zones_spec piF heads z hm
  have hht : z.headType = k := by rw [hz, createZone_headType]
  refine ⟨by rw [hht]; exact hk, ms, hne, ?_, ?_⟩
  · conv_lhs => rw [hz]
    exact createZone_heads piF z.number ms k
  · intro h hh
    refine ⟨(hmem h hh).1, by rw [hht]; exact (hmem h hh).2, ?_⟩
    rw [(hmem h hh).2]
    exact hk

/-- Witness for C5 on the one-spray-head input. -/
theorem C5_zone_kind_homogeneity_witness :
    zoneOfSpray ∈ (assignZones 0 [sprayHead]).1 ∧
      (zoneOfSpray.headType ≠ "quick-coupler" ∧
        ∃ ms : List Head, ms ≠ [] ∧ zoneOfSpray.heads = ms.map (·.id) ∧
          ∀ h ∈ ms, h ∈ [sprayHead] ∧ h.type = zoneOfSpray.headType ∧
            h.type ≠ "quick-coupler") :=
  ⟨by with_unfolding_all decide,
    C5_zone_kind_homogeneity 0 [sprayHead] zoneOfSpray
      (by with_unfolding_all decide)⟩

/-! ## Claim C4 : zone capacity (soft) -/

/-- **C4.**  For every zone produced by Zone Assignment (over heads with
non-negative GPM), the zone's `totalGPM` is the rounded member sum,
`totalGPM` minus the GPM of the last head inserted stays within the
lateral capacity of the zone's head kind, and any zone of two or more
heads has `totalGPM` itself within capacity (only a single-head zone may
exceed it). -/
theorem C4_zone_capacity (piF : ℚ) (heads : List Head)
    (hnn : ∀ h ∈ heads, 0 ≤ h.gpm) :
    ∀ z ∈ (assignZones piF heads).1,
      ∃ (ms : List Head) (hne : ms ≠ []),
        z.heads = ms.map (·.id) ∧
        z.totalGPM = roundTo1 ((ms.map (·.gpm)).sum) ∧
        z.totalGPM - (ms.getLast hne).gpm ≤
          getMaxGPMForLateral (getLateralSizeIn z.headType) ∧
        (2 ≤ ms.length →
          z.totalGPM ≤ getMaxGPMForLateral (getLateralSizeIn z.headType)) := by
  intro z hm
  obtain ⟨k, ms, hne, hk, hz, hmem, hcap⟩ :=
    assignZones_zones_spec piF heads z hm
  have hht : z.headType = k := by rw [hz, createZone_headType]
  have htot : z.totalGPM = roundTo1 ((ms.map (·.gpm)).sum) := by
    rw [hz, createZone_totalGPM]
  have hlast : (ms.getLast hne).gpm ≥ 0 :=
    hnn _ (hmem _ (List.getLast_mem hne)).1
  refine ⟨ms, hne, ?_, htot, ?_, ?_⟩
  · conv_lhs => rw [hz]
    exact createZone_heads piF z.number ms k
  · rw [hht]
    rcases Nat.lt_or_ge ms.length 2 with hlen | hlen
    · -- single-head zone: rounding overshoot is at most 1/20 ≤ capacity
      have h1 : ms.length = 1 := by
        have := List.length_pos.2 hne
        omega
      obtain ⟨a, rfl⟩ := List.length_eq_one.1 h1
      have hga : (([a].map (·.gpm)).sum) = a.gpm := by simp
      have hle := roundTo1_le (([a].map (·.gpm)).sum)
      have hcapge := maxGPM_ge_15 (getLateralSizeIn k)
      have : ([a].getLast hne) = a := rfl
      rw [htot, this, hga] at *
      linarith [roundTo1_le a.gpm]
    · -- multi-head zone: the exact sum already fits the capacity
      have hsum := hcap hlen
      have := roundTo1_mono hsum
      rw [roundTo1_maxGPM] at this
      rw [htot]
      linarith
  · intro hlen
    rw [hht, htot]
    have hsum := hcap hlen
    have := roundTo1_mono hsum
    rwa [roundTo1_maxGPM] at this

/-- Witness for C4 on the one-spray-head input: the GPM is non-negative,
and `1.5 - 1.5 = 0 ≤ 15`. -/
theorem C4_zone_capacity_witness :
    (∀ h ∈ [sprayHead], 0 ≤ h.gpm) ∧
      zoneOfSpray ∈ (assignZones 0 [sprayHead]).1 ∧
      ∃ (ms : List Head) (hne : ms ≠ []),
        zoneOfSpray.heads = ms.map (·.id) ∧
        zoneOfSpray.totalGPM = roundTo1 ((ms.map (·.gpm)).sum) ∧
        zoneOfSpray.totalGPM - (ms.getLast hne).gpm ≤
          getMaxGPMForLateral (getLateralSizeIn zoneOfSpray.headType) ∧
        (2 ≤ ms.length →
          zoneOfSpray.totalGPM ≤
            getMaxGPMForLateral (getLateralSizeIn zoneOfSpray.headType)) :=
  ⟨by with_unfolding_all decide, by with_unfolding_all decide,
    C4_zone_capacity 0 [sprayHead] (by with_unfolding_all decide) zoneOfSpray
      (by with_unfolding_all decide)⟩

/-! ## Claim C2 : the coverage-area formula

The claim says non-drip coverage area is `Σ π·r²` per head; the code
computes `count × (mean radius)²` with no π factor. -/

/-- Radius fold closed form. -/
theorem radFold_eq (l : List Head) :
    ∀ a : ℚ, l.foldl (fun s h => s + h.radiusFt) a =
      a + (l.map (·.radiusFt)).sum := by
  induction l with
  | nil => intro a; simp
  | cons h t ih => intro a; simp [ih, add_assoc]

/-- Constant fold closed form (the drip branch of `estimateZoneArea`). -/
theorem constFold_eq (c : ℚ) (l : List Head) :
    ∀ a : ℚ, l.foldl (fun s _ => s + c) a = a + (l.length : ℚ) * c := by
  induction l with
  | nil => intro a; simp
  | cons h t ih =>
      intro a
      rw [List.foldl_cons, ih, List.length_cons]
      push_cast
      ring

/-- Closed form of `estimateZoneArea` on a nonempty non-drip head list. -/
theorem estimateZoneArea_nondrip (piF : ℚ) (ms : List Head) (hne : ms ≠ [])
    (hnd : ((ms.head?.map (·.type)).getD "") ≠ "drip") :
    estimateZoneArea piF ms =
      (ms.length : ℚ) * ((ms.map (·.radiusFt)).sum / (ms.length : ℚ)) *
        ((ms.map (·.radiusFt)).sum / (ms.length : ℚ)) := by
  rw [estimateZoneArea, if_neg (by simp [List.length_eq_zero]; exact hne),
    if_neg hnd, radFold_eq]
  simp

/-- Closed form of `estimateZoneArea` on a nonempty drip head list. -/
theorem estimateZoneArea_drip (piF : ℚ) (ms : List Head) (hne : ms ≠ [])
    (hd : ((ms.head?.map (·.type)).getD "") = "drip") :
    estimateZoneArea piF ms = (ms.length : ℚ) * (piF * 100) := by
  rw [estimateZoneArea, if_neg (by simp [List.length_eq_zero]; exact hne),
    if_pos hd, constFold_eq]
  simp

/-- **C2 (counterexample).**  On the single spray head of radius 12 ft the
code's coverage area is `1 × 12² = 144 ft²` and the stored precipitation
rate is `round2(1.5 × 96.25 / 144) = 1.0`; the claimed area `π × 12²` is
not 144 (π ≠ 1), so the claimed formula does not match the code. -/
theorem C2_coverage_area_counterexample :
    estimateZoneArea 0 [sprayHead] = 144 ∧
      ((assignZones 0 [sprayHead]).1.map (·.precipRateInPerHr)) = [1] ∧
      Real.pi * (12 : ℝ) ^ 2 ≠ (144 : ℝ) := by
  refine ⟨by with_unfolding_all decide, by with_unfolding_all decide, ?_⟩
  intro heq
  nlinarith [Real.pi_gt_three]

/-- **C2 (amended).**  For every zone closed by Zone Assignment the total
coverage area used to derive the precipitation rate is
`headCount × (mean member radius)²` for non-drip zones (no π factor) and
`headCount × (π × 100)` for drip zones (π being the float `Math.PI`
parameter `piF`), and the stored precipitation rate is
`round2((exact member GPM sum × 96.25) / totalArea)` with a zero guard for
zero area. -/
theorem C2_amended_area_precip (piF : ℚ) (heads : List Head) :
    ∀ z ∈ (assignZones piF heads).1,
      ∃ ms : List Head, ms ≠ [] ∧ z.heads = ms.map (·.id) ∧
        (∀ h ∈ ms, h.type = z.headType) ∧
        (z.headType ≠ "drip" →
          estimateZoneArea piF ms =
            (ms.length : ℚ) * ((ms.map (·.radiusFt)).sum / (ms.length : ℚ)) *
              ((ms.map (·.radiusFt)).sum / (ms.length : ℚ))) ∧
        (z.headType = "drip" →
          estimateZoneArea piF ms = (ms.length : ℚ) * (piF * 100)) ∧
        z.precipRateInPerHr =
          roundTo2 (if estimateZoneArea piF ms > 0 then
            ((ms.map (·.gpm)).sum * 96.25) / estimateZoneArea piF ms
          else 0) := by
  intro z hm
  obtain ⟨k, ms, hne, hk, hz, hmem, _⟩ := assignZones_zones_spec piF heads z hm
  have hht : z.headType = k := by rw [hz, createZone_headType]
  have hhead : ((ms.head?.map (·.type)).getD "") = z.headType := by
    cases ms with
    | nil => exact absurd rfl hne
    | cons a t =>
        simp only [List.head?_cons, Option.map_some, Option.getD_some]
        rw [hht]
        exact (hmem a (List.mem_cons_self a t)).2
  refine ⟨ms, hne, ?_, ?_, ?_, ?_, ?_⟩
  · conv_lhs => rw [hz]
    exact createZone_heads piF z.number ms k
  · intro h hh
    rw [hht]
    exact (hmem h hh).2
  · intro hndr
    exact estimateZoneArea_nondrip piF ms hne (by rw [hhead]; exact hndr)
  · intro hdr
    exact estimateZoneArea_drip piF ms hne (by rw [hhead]; exact hdr)
  · rw [hz, createZone_precip]

/-- Witness for the amended C2 on the one-spray-head input: area
`1 × (12/1)² = 144`, stored precipitation rate `1.0`. -/
theorem C2_amended_area_precip_witness :
    zoneOfSpray ∈ (assignZones 0 [sprayHead]).1 ∧
      ∃ ms : List Head, ms ≠ [] ∧ zoneOfSpray.heads = ms.map (·.id) ∧
        (∀ h ∈ ms, h.type = zoneOfSpray.headType) ∧
        (zoneOfSpray.headType ≠ "drip" →
          estimateZoneArea 0 ms =
            (ms.length : ℚ) * ((ms.map (·.radiusFt)).sum / (ms.length : ℚ)) *
              ((ms.map (·.radiusFt)).sum / (ms.length : ℚ))) ∧
        (zoneOfSpray.headType = "drip" →
          estimateZoneArea 0 ms = (ms.length : ℚ) * (0 * 100)) ∧
        zoneOfSpray.precipRateInPerHr =
          roundTo2 (if estimateZoneArea 0 ms > 0 then
            ((ms.map (·.gpm)).sum * 96.25) / estimateZoneArea 0 ms
          else 0) :=
  ⟨by with_unfolding_all decide,
    C2_amended_area_precip 0 [sprayHead] zoneOfSpray
      (by with_unfolding_all decide)⟩

/-! ## Claim C9 : the frame of `assignZones` on the head list -/

/-- `ZOnly` is reflexive. -/
theorem zonly_refl (a : Head) : ZOnly a a := Eq.symm rfl

/-- `ZOnly` is transitive. -/
theorem zonly_trans {a b c : Head} (h1 : ZOnly a b) (h2 : ZOnly b c) :
    ZOnly a c := by
  rw [ZOnly] at *
  rw [h2, h1]

/-- `Forall₂ ZOnly` is reflexive. -/
theorem forall₂_zonly_refl (l : List Head) : List.Forall₂ ZOnly l l := by
  induction l with
  | nil => exact List.Forall₂.nil
  | cons h t ih => exact List.Forall₂.cons (zonly_refl h) ih

/-- `Forall₂ ZOnly` is transitive. -/
theorem forall₂_zonly_trans {a b c : List Head}
    (h1 : List.Forall₂ ZOnly a b) (h2 : List.Forall₂ ZOnly b c) :
    List.Forall₂ ZOnly a c := by
  induction h1 generalizing c with
  | nil => cases h2; exact List.Forall₂.nil
  | cons hab t ih =>
      cases h2 with
      | cons hbc t2 => exact List.Forall₂.cons (zonly_trans hab hbc) (ih t2)

/-- `setZoneIdAtFirst` changes at most the `zoneId` of one entry. -/
theorem setZoneIdAtFirst_zonly (l : List Head) (hid zid : String) :
    List.Forall₂ ZOnly l (setZoneIdAtFirst l hid zid) := by
  induction l with
  | nil => exact List.Forall₂.nil
  | cons h t ih =>
      rw [setZoneIdAtFirst]
      by_cases hh : h.id = hid
      · rw [if_pos hh]
        exact List.Forall₂.cons (Eq.symm rfl) (forall₂_zonly_refl t)
      · rw [if_neg hh]
        exact List.Forall₂.cons (zonly_refl h) ih

/-- `assignHeadsToZone` changes only `zoneId` fields. -/
theorem assignHeadsToZone_zonly (c : List Head) :
    ∀ (u : List Head) (zid : String),
      List.Forall₂ ZOnly u (assignHeadsToZone u c zid) := by
  induction c with
  | nil => intro u zid; exact forall₂_zonly_refl u
  | cons m ct ih =>
      intro u zid
      exact forall₂_zonly_trans (setZoneIdAtFirst_zonly u m.id zid) (ih _ zid)

/-- `applyZoneIds` changes only `zoneId` fields. -/
theorem applyZoneIds_zonly (piF : ℚ) (k : String) (cs : List (List Head)) :
    ∀ (n : ℕ) (u : List Head),
      List.Forall₂ ZOnly u (applyZoneIds piF k n u cs) := by
  induction cs with
  | nil => intro n u; exact forall₂_zonly_refl u
  | cons c ct ih =>
      intro n u
      exact forall₂_zonly_trans (assignHeadsToZone_zonly c u _) (ih _ _)

/-- The whole of `assignZones` changes only `zoneId` fields: the returned
head list has the same length and order, every entry equal to its input
except possibly `zoneId`. -/
theorem assignZones_zonly (piF : ℚ) (heads : List Head) :
    List.Forall₂ ZOnly heads (assignZones piF heads).2 := by
  simp only [assignZones]
  have key : ∀ (ks : List String) (acc : AZAcc),
      List.Forall₂ ZOnly heads acc.upd →
      List.Forall₂ ZOnly heads (ks.foldl (azFold piF heads) acc).upd := by
    intro ks
    induction ks with
    | nil => intro acc h; exact h
    | cons k kt ih =>
        intro acc h
        refine ih _ ?_
        rw [azFold]
        by_cases hk : k = "quick-coupler"
        · rwa [if_pos hk]
        · rw [if_neg hk, packGroup_eq]
          exact forall₂_zonly_trans h (applyZoneIds_zonly piF k _ _ _)
  exact key (groupKeys heads) ⟨[], 1, heads⟩ (forall₂_zonly_refl heads)

/-- Effect of `setZoneIdAtFirst` on id lookup: the looked-up entry gets the
new `zoneId` exactly when the ids match. -/
theorem setZoneIdAtFirst_byId (u : List Head) (a zid hid : String) :
    byId (setZoneIdAtFirst u a zid) hid =
      if hid = a then (byId u hid).map (fun h => { h with zoneId := zid })
      else byId u hid := by
  induction u with
  | nil => simp [byId, setZoneIdAtFirst]
  | cons h t ih =>
      rw [setZoneIdAtFirst]
      by_cases hh : h.id = a
      · rw [if_pos hh]
        by_cases hhid : hid = a
        · subst hhid
          simp [byId, List.find?_cons, hh]
        · have hne : ¬ h.id = hid := by
            rw [hh]; exact fun hc => hhid hc.symm
          simp [byId, List.find?_cons, hhid, hne]
      · rw [if_neg hh]
        by_cases hht : h.id = hid
        · have hhid : ¬ hid = a := by
            intro hc
            rw [hc] at hht
            exact hh hht
          simp [byId, List.find?_cons, hht, hhid]
        · have hdec : decide (h.id = hid) = false := by simpa using hht
          simp only [byId, List.find?_cons, hdec]
          simpa [byId] using ih

/-- Pointwise `ZOnly` preserves the id sequence. -/
theorem forall₂_zonly_map_id {u v : List Head}
    (h : List.Forall₂ ZOnly u v) : v.map (·.id) = u.map (·.id) := by
  induction h with
  | nil => rfl
  | cons hab t ih =>
      simp only [List.map_cons, ih, List.cons.injEq, and_true]
      rw [hab]

/-- Effect of `assignHeadsToZone` on id lookup. -/
theorem assignHeadsToZone_byId (c : List Head) :
    ∀ (u : List Head) (zid hid : String),
      byId (assignHeadsToZone u c zid) hid =
        if hid ∈ c.map (·.id) then
          (byId u hid).map (fun h => { h with zoneId := zid })
        else byId u hid := by
  induction c with
  | nil => intro u zid hid; simp [assignHeadsToZone]
  | cons m ct ih =>
      intro u zid hid
      have hstep : assignHeadsToZone u (m :: ct) zid =
          assignHeadsToZone (setZoneIdAtFirst u m.id zid) ct zid := rfl
      rw [hstep, ih, setZoneIdAtFirst_byId]
      by_cases h2 : hid = m.id
      · by_cases h1 : hid ∈ ct.map (·.id)
        · rw [if_pos h1, if_pos h2, if_pos (by simp [h2]), Option.map_map]
          congr 1
        · rw [if_neg h1, if_pos h2, if_pos (by simp [h2])]
      · by_cases h1 : hid ∈ ct.map (·.id)
        · rw [if_pos h1, if_neg h2, if_pos (by simp [h1])]
        · rw [if_neg h1, if_neg h2, if_neg (by simp [h1, h2])]

/-- `applyZoneIds` leaves lookups of untouched ids unchanged. -/
theorem applyZoneIds_byId_out (piF : ℚ) (k : String) (cs : List (List Head)) :
    ∀ (n : ℕ) (u : List Head) (hid : String),
      (∀ c ∈ cs, hid ∉ c.map (·.id)) →
      byId (applyZoneIds piF k n u cs) hid = byId u hid := by
  induction cs with
  | nil => intro n u hid _; rfl
  | cons c ct ih =>
      intro n u hid hout
      have h1 : hid ∉ c.map (·.id) := hout c (List.mem_cons_self c ct)
      show byId (applyZoneIds piF k (n + 1) _ ct) hid = _
      rw [ih (n + 1) _ hid (fun c2 hc2 => hout c2 (List.mem_cons_of_mem c hc2)),
        assignHeadsToZone_byId, if_neg h1]

/-- `applyZoneIds` on an id occurring in exactly one chunk: the lookup
gains that chunk's zone id, and that zone lists the id. -/
theorem applyZoneIds_byId_hit (piF : ℚ) (k : String) (cs : List (List Head)) :
    ∀ (n : ℕ) (u : List Head) (hid : String),
      ((cs.flatten.map (·.id)).Nodup) →
      (∃ c ∈ cs, hid ∈ c.map (·.id)) →
      ∃ z ∈ numberZones piF k n cs, hid ∈ z.heads ∧
        byId (applyZoneIds piF k n u cs) hid =
          (byId u hid).map (fun h => { h with zoneId := z.id }) := by
  induction cs with
  | nil => intro n u hid _ hhit; simp at hhit
  | cons c ct ih =>
      intro n u hid hnd hhit
      have hndapp : ((c.map (·.id)) ++ (ct.flatten.map (·.id))).Nodup := by
        simpa [List.map_append] using hnd
      rw [List.nodup_append] at hndapp
      by_cases h1 : hid ∈ c.map (·.id)
      · have hout : ∀ c2 ∈ ct, hid ∉ c2.map (·.id) := by
          intro c2 hc2 hmem
          have : hid ∈ ct.flatten.map (·.id) := by
            rcases List.mem_map.1 hmem with ⟨m, hm, rfl⟩
            exact List.mem_map.2 ⟨m, List.mem_flatten.2 ⟨c2, hc2, hm⟩, rfl⟩
          exact hndapp.2.2 h1 this
        refine ⟨createZone piF n c k, List.mem_cons_self _ _, ?_, ?_⟩
        · rw [createZone_heads]; exact h1
        · show byId (applyZoneIds piF k (n + 1) _ ct) hid = _
          rw [applyZoneIds_byId_out piF k ct (n + 1) _ hid hout,
            assignHeadsToZone_byId, if_pos h1]
      · rcases hhit with ⟨c2, hc2, hmem⟩
        rcases List.mem_cons.1 hc2 with rfl | hc2t
        · exact absurd hmem h1
        · have hstep : byId (assignHeadsToZone u c (createZone piF n c k).id) hid
              = byId u hid := by
            rw [assignHeadsToZone_byId, if_neg h1]
          obtain ⟨z, hz, hzid, heq⟩ :=
            ih (n + 1) (assignHeadsToZone u c (createZone piF n c k).id) hid
              hndapp.2.1 ⟨c2, hc2t, hmem⟩
          refine ⟨z, List.mem_cons_of_mem _ hz, hzid, ?_⟩
          show byId (applyZoneIds piF k (n + 1) _ ct) hid = _
          rw [heq, hstep]

/-- Generic fold-state preservation. -/
theorem foldl_pres {σ α : Type} (Q : σ → Prop) (step : σ → α → σ)
    (hstep : ∀ s a, Q s → Q (step s a)) :
    ∀ (l : List α) (s : σ), Q s → Q (l.foldl step s) := by
  intro l
  induction l with
  | nil => intro s h; exact h
  | cons a t ih => intro s h; exact ih _ (hstep s a h)

/-- `insertKey` keeps existing keys and contains the inserted key. -/
theorem insertKey_mem (ks : List String) (k : String) :
    (∀ x ∈ ks, x ∈ insertKey ks k) ∧ k ∈ insertKey ks k := by
  rw [insertKey]
  by_cases hk : k ∈ ks
  · rw [if_pos hk]; exact ⟨fun x hx => hx, hk⟩
  · rw [if_neg hk]
    exact ⟨fun x hx => List.mem_append_left _ hx,
      List.mem_append_right _ (List.mem_singleton.2 rfl)⟩

/-- `insertKey` preserves `Nodup`. -/
theorem insertKey_nodup {ks : List String} (h : ks.Nodup) (k : String) :
    (insertKey ks k).Nodup := by
  rw [insertKey]
  by_cases hk : k ∈ ks
  · rwa [if_pos hk]
  · rw [if_neg hk]
    simpa [List.nodup_append] using ⟨h, hk⟩

/-- The group keys are distinct. -/
theorem groupKeys_nodup (heads : List Head) : (groupKeys heads).Nodup := by
  rw [groupKeys]
  exact foldl_pres (fun ks => ks.Nodup) (fun ks h => insertKey ks h.type)
    (fun ks h hnd => insertKey_nodup hnd h.type) heads [] List.nodup_nil

/-- The accumulated key set only grows along the fold. -/
theorem groupKeysAux_mono (l : List Head) :
    ∀ (ks : List String) (x : String), x ∈ ks →
      x ∈ l.foldl (fun ks h => insertKey ks h.type) ks := by
  induction l with
  | nil => intro ks x hx; exact hx
  | cons h t ih =>
      intro ks x hx
      exact ih _ x ((insertKey_mem ks h.type).1 x hx)

/-- Every head's kind occurs among the group keys. -/
theorem groupKeys_complete (heads : List Head) :
    ∀ h ∈ heads, h.type ∈ groupKeys heads := by
  rw [groupKeys]
  generalize hks : ([] : List String) = ks
  clear hks
  induction heads generalizing ks with
  | nil => intro h hm; simp at hm
  | cons h0 t ih =>
      intro h hm
      rw [List.foldl_cons]
      rcases List.mem_cons.1 hm with rfl | hmt
      · exact groupKeysAux_mono t _ _ (insertKey_mem ks h.type).2
      · exact ih _ h hmt

/-- Zones already accumulated survive the rest of the fold. -/
theorem azfold_zones_mono (piF : ℚ) (heads : List Head) (z : Zone) :
    ∀ (ks : List String) (acc : AZAcc), z ∈ acc.zones →
      z ∈ (ks.foldl (azFold piF heads) acc).zones := by
  intro ks acc h
  refine foldl_pres (fun a => z ∈ a.zones) _ ?_ ks acc h
  intro a k hz
  rw [azFold]
  by_cases hk : k = "quick-coupler"
  · rwa [if_pos hk]
  · rw [if_neg hk, packGroup_eq]
    exact List.mem_append_left _ hz

/-- Processing groups that do not involve id `hid` leaves its lookup
unchanged and adds no zone listing it. -/
theorem azfold_byId_out (piF : ℚ) (heads : List Head) :
    ∀ (ks : List String) (acc : AZAcc) (hid : String),
      (∀ k ∈ ks, k = "quick-coupler" ∨
        hid ∉ (heads.filter (fun h => h.type = k)).map (·.id)) →
      byId (ks.foldl (azFold piF heads) acc).upd hid = byId acc.upd hid ∧
      (∀ z ∈ (ks.foldl (azFold piF heads) acc).zones,
        z ∈ acc.zones ∨ hid ∉ z.heads) := by
  intro ks
  induction ks with
  | nil => intro acc hid _; exact ⟨rfl, fun z hz => Or.inl hz⟩
  | cons k kt ih =>
      intro acc hid hout
      have hkt := fun k2 hk2 => hout k2 (List.mem_cons_of_mem k hk2)
      rcases hout k (List.mem_cons_self k kt) with hqc | hnotin
      · have hstep : azFold piF heads acc k = acc := by
          rw [azFold, if_pos hqc]
        rw [List.foldl_cons, hstep]
        exact ih acc hid hkt
      · rw [List.foldl_cons]
        by_cases hqc : k = "quick-coupler"
        · have hstep : azFold piF heads acc k = acc := by
            rw [azFold, if_pos hqc]
          rw [hstep]
          exact ih acc hid hkt
        · have hchunk : ∀ c ∈ chunksAux (getMaxGPMForLateral (getLateralSizeIn k))
              (heads.filter (fun h => h.type = k)) [] 0, hid ∉ c.map (·.id) := by
            intro c hc hmem
            rcases List.mem_map.1 hmem with ⟨m, hm, rfl⟩
            refine hnotin (List.mem_map.2 ⟨m, ?_, rfl⟩)
            have : m ∈ (chunksAux (getMaxGPMForLateral (getLateralSizeIn k))
                (heads.filter (fun h => h.type = k)) [] 0).flatten :=
              List.mem_flatten.2 ⟨c, hc, hm⟩
            rwa [chunksAux_join, List.nil_append] at this
          have hupd1 : byId (azFold piF heads acc k).upd hid = byId acc.upd hid := by
            rw [azFold, if_neg hqc, packGroup_eq]
            exact applyZoneIds_byId_out piF k _ acc.num acc.upd hid hchunk
          have hzones1 : ∀ z ∈ (azFold piF heads acc k).zones,
              z ∈ acc.zones ∨ hid ∉ z.heads := by
            rw [azFold, if_neg hqc, packGroup_eq]
            intro z hz
            rcases List.mem_append.1 hz with ha | hnew
            · exact Or.inl ha
            · obtain ⟨m, ms, hms, rfl⟩ := mem_numberZones piF k _ _ _ hnew
              refine Or.inr ?_
              rw [createZone_heads]
              exact hchunk ms hms
          obtain ⟨hupd, hzones⟩ := ih _ hid hkt
          refine ⟨by rw [hupd, hupd1], ?_⟩
          intro z hz
          rcases hzones z hz with hin | hno
          · exact hzones1 z hin
          · exact Or.inr hno

/-- Processing the group of id `hid` records it in exactly the zone built
from its chunk and stamps that zone's id on its lookup. -/
theorem azfold_byId_hit (piF : ℚ) (heads : List Head) :
    ∀ (ks : List String) (acc : AZAcc) (hid t : String),
      ks.Nodup → t ∈ ks → t ≠ "quick-coupler" →
      hid ∈ (heads.filter (fun h => h.type = t)).map (·.id) →
      (∀ k ∈ ks, k ≠ t →
        hid ∉ (heads.filter (fun h => h.type = k)).map (·.id)) →
      ((heads.filter (fun h => h.type = t)).map (·.id)).Nodup →
      ∃ z ∈ (ks.foldl (azFold piF heads) acc).zones, hid ∈ z.heads ∧
        byId (ks.foldl (azFold piF heads) acc).upd hid =
          (byId acc.upd hid).map (fun h => { h with zoneId := z.id }) := by
  intro ks
  induction ks with
  | nil => intro acc hid t _ ht; simp at ht
  | cons k kt ih =>
      intro acc hid t hndks ht htqc hhid hothers hndfil
      rw [List.foldl_cons]
      by_cases hkt : k = t
      · subst hkt
        have hndflat : ((chunksAux (getMaxGPMForLateral (getLateralSizeIn k))
            (heads.filter (fun h => h.type = k)) [] 0).flatten.map (·.id)).Nodup := by
          rw [chunksAux_join, List.nil_append]
          exact hndfil
        have hhit : ∃ c ∈ chunksAux (getMaxGPMForLateral (getLateralSizeIn k))
            (heads.filter (fun h => h.type = k)) [] 0, hid ∈ c.map (·.id) := by
          rcases List.mem_map.1 hhid with ⟨m, hm, rfl⟩
          have : m ∈ (chunksAux (getMaxGPMForLateral (getLateralSizeIn k))
              (heads.filter (fun h => h.type = k)) [] 0).flatten := by
            rw [chunksAux_join, List.nil_append]
            exact hm
          rcases List.mem_flatten.1 this with ⟨c, hc, hmc⟩
          exact ⟨c, hc, List.mem_map.2 ⟨m, hmc, rfl⟩⟩
        obtain ⟨z, hz, hzhid, hbyid⟩ :=
          applyZoneIds_byId_hit piF k _ acc.num acc.upd hid hndflat hhit
        have hzin : z ∈ (azFold piF heads acc k).zones := by
          rw [azFold, if_neg htqc, packGroup_eq]
          exact List.mem_append_right _ hz
        have hout : ∀ k2 ∈ kt, k2 = "quick-coupler" ∨
            hid ∉ (heads.filter (fun h => h.type = k2)).map (·.id) := by
          intro k2 hk2
          have hne : k2 ≠ k := by
            intro hceq
            subst hceq
            exact (List.nodup_cons.1 hndks).1 hk2
          exact Or.inr (hothers k2 (List.mem_cons_of_mem _ hk2) hne)
        obtain ⟨hupd2, _⟩ := azfold_byId_out piF heads kt (azFold piF heads acc k) hid hout
        refine ⟨z, azfold_zones_mono piF heads z kt _ hzin, hzhid, ?_⟩
        rw [hupd2]
        have hfin : byId (azFold piF heads acc k).upd hid =
            (byId acc.upd hid).map (fun h => { h with zoneId := z.id }) := by
          rw [azFold, if_neg htqc, packGroup_eq]
          exact hbyid
        exact hfin
      · have htkt : t ∈ kt := by
          rcases List.mem_cons.1 ht with rfl | h2
          · exact absurd rfl hkt
          · exact h2
        have hnotk : byId (azFold piF heads acc k).upd hid = byId acc.upd hid := by
          rw [azFold]
          by_cases hqc : k = "quick-coupler"
          · rw [if_pos hqc]
          · rw [if_neg hqc, packGroup_eq]
            refine applyZoneIds_byId_out piF k _ acc.num acc.upd hid ?_
            intro c hc hmem
            rcases List.mem_map.1 hmem with ⟨m, hm, rfl⟩
            refine hothers k (List.mem_cons_self k kt) hkt
              (List.mem_map.2 ⟨m, ?_, rfl⟩)
            have : m ∈ (chunksAux (getMaxGPMForLateral (getLateralSizeIn k))
                (heads.filter (fun h => h.type = k)) [] 0).flatten :=
              List.mem_flatten.2 ⟨c, hc, hm⟩
            rwa [chunksAux_join, List.nil_append] at this
        obtain ⟨z, hz, hzhid, hbyid⟩ := ih (azFold piF heads acc k) hid t
          (List.nodup_cons.1 hndks).2 htkt htqc hhid
          (fun k2 hk2 => hothers k2 (List.mem_cons_of_mem _ hk2)) hndfil
        refine ⟨z, hz, hzhid, ?_⟩
        rw [hbyid, hnotk]

/-- The member-id lists of `numberZones` flatten to the chunk flatten. -/
theorem numberZones_heads_flatten (piF : ℚ) (k : String) :
    ∀ (cs : List (List Head)) (n : ℕ),
      (((numberZones piF k n cs).map (·.heads)).flatten) =
        (cs.flatten).map (·.id) := by
  intro cs
  induction cs with
  | nil => intro n; rfl
  | cons c ct ih =>
      intro n
      simp only [numberZones, List.map_cons, List.flatten_cons,
        createZone_heads, List.flatten_cons, ih, List.map_append]

/-- Closed form of the zone member-id lists along the group fold. -/
theorem azfold_zoneheads (piF : ℚ) (heads : List Head) :
    ∀ (ks : List String) (acc : AZAcc),
      (((ks.foldl (azFold piF heads) acc).zones).map (·.heads)).flatten =
        ((acc.zones.map (·.heads)).flatten) ++
        (ks.map (fun k => if k = "quick-coupler" then []
          else (heads.filter (fun h => h.type = k)).map (·.id))).flatten := by
  intro ks
  induction ks with
  | nil => intro acc; simp
  | cons k kt ih =>
      intro acc
      rw [List.foldl_cons, ih, List.map_cons, List.flatten_cons]
      by_cases hk : k = "quick-coupler"
      · rw [if_pos hk]
        have : azFold piF heads acc k = acc := by rw [azFold, if_pos hk]
        rw [this, List.nil_append]
      · rw [if_neg hk]
        have : (azFold piF heads acc k).zones = acc.zones ++
            numberZones piF k acc.num
              (chunksAux (getMaxGPMForLateral (getLateralSizeIn k))
                (heads.filter (fun h => h.type = k)) [] 0) := by
          rw [azFold, if_neg hk, packGroup_eq]
        rw [this, List.map_append, List.flatten_append,
          numberZones_heads_flatten, chunksAux_join, List.nil_append,
          List.append_assoc]

/-- Splitting a filter over a fresh key: the grouped traversal of the
non-quick-coupler heads is a permutation of a single filter. -/
theorem concat_keyfilters_perm (l : List Head) :
    ∀ (ks : List String), ks.Nodup →
      ((ks.map (fun k => if k = "quick-coupler" then []
          else (l.filter (fun h => h.type = k)).map (·.id))).flatten).Perm
        ((l.filter (fun h =>
            decide (h.type ∈ ks) && decide (h.type ≠ "quick-coupler"))).map
          (·.id)) := by
  intro ks
  induction ks with
  | nil =>
      intro _
      simp
  | cons k kt ih =>
      intro hnd
      rw [List.map_cons, List.flatten_cons]
      have hknotin := (List.nodup_cons.1 hnd).1
      have hIH := ih (List.nodup_cons.1 hnd).2
      by_cases hkq : k = "quick-coupler"
      · rw [if_pos hkq, List.nil_append]
        refine hIH.trans (List.Perm.of_eq (congrArg _ (List.filter_congr ?_)))
        intro a _
        by_cases hin : a.type ∈ kt <;> by_cases haq : a.type = "quick-coupler" <;>
          simp [hin, haq, hkq]
      · rw [if_neg hkq]
        have hq : l.filter (fun a => decide (a.type = k) &&
            (decide (a.type ∈ k :: kt) && decide (a.type ≠ "quick-coupler"))) =
            l.filter (fun h => h.type = k) := by
          refine List.filter_congr ?_
          intro a _
          by_cases ha : a.type = k
          · simp [ha, hkq]
          · simp [ha]
        have hnq : l.filter (fun a => (!decide (a.type = k)) &&
            (decide (a.type ∈ k :: kt) && decide (a.type ≠ "quick-coupler"))) =
            l.filter (fun h =>
              decide (h.type ∈ kt) && decide (h.type ≠ "quick-coupler")) := by
          refine List.filter_congr ?_
          intro a _
          by_cases ha : a.type = k
          · have hnotin : a.type ∉ kt := by rw [ha]; exact hknotin
            simp [ha, hnotin, hknotin]
          · by_cases hin : a.type ∈ kt <;> by_cases haq : a.type = "quick-coupler" <;>
              simp [ha, hin, haq]
        have hbase := List.filter_append_perm (fun a => decide (a.type = k))
          (l.filter (fun h => decide (h.type ∈ k :: kt) &&
            decide (h.type ≠ "quick-coupler")))
        rw [List.filter_filter, List.filter_filter, hq, hnq] at hbase
        refine List.Perm.trans ?_ (hbase.map (·.id))
        rw [List.map_append]
        exact List.Perm.append_left _ hIH

/-- With distinct ids, looking a member head up by its own id returns it. -/
theorem byId_eq_self {heads : List Head} (hnd : (heads.map (·.id)).Nodup)
    {h0 : Head} (hm : h0 ∈ heads) : byId heads h0.id = some h0 := by
  have hsome : (heads.find? (fun h => h.id = h0.id)).isSome := by
    rw [List.find?_isSome]
    exact ⟨h0, hm, by simp⟩
  obtain ⟨m, hmeq⟩ := Option.isSome_iff_exists.1 hsome
  have hmm := List.mem_of_find?_eq_some hmeq
  have hmid : m.id = h0.id := by simpa using List.find?_some hmeq
  rw [byId, hmeq]
  exact congrArg some (List.inj_on_of_nodup_map hnd hmm hm hmid)

/-- In a list of lists with duplicate-free flattened image, an element of
two members' images forces the members equal. -/
theorem flatten_nodup_unique {β γ : Type} [DecidableEq γ] (f : β → List γ) :
    ∀ (L : List β), (((L.map f).flatten).Nodup) →
      ∀ a ∈ L, ∀ b ∈ L, ∀ x : γ, x ∈ f a → x ∈ f b → a = b := by
  intro L
  induction L with
  | nil => intro _ a ha; simp at ha
  | cons c L2 ih =>
      intro hnd a ha b hb x hxa hxb
      have hnd2 : ((f c) ++ ((L2.map f).flatten)).Nodup := by
        simpa using hnd
      rw [List.nodup_append] at hnd2
      have hdis := hnd2.2.2
      rcases List.mem_cons.1 ha with rfl | ha2
      · rcases List.mem_cons.1 hb with rfl | hb2
        · rfl
        · exact absurd (List.mem_flatten.2 ⟨f b, List.mem_map.2 ⟨b, hb2, rfl⟩, hxb⟩)
            (hdis hxa)
      · rcases List.mem_cons.1 hb with rfl | hb2
        · exact absurd (List.mem_flatten.2 ⟨f a, List.mem_map.2 ⟨a, ha2, rfl⟩, hxa⟩)
            (hdis hxb)
        · exact ih hnd2.2.1 a ha2 b hb2 x hxa hxb

/-- **C9 (amended).**  Under the amendment that the input head ids are
pairwise distinct (which Head Placement guarantees), `assignZones`
satisfies the full frame specification `AssignFrameSpec`. -/
theorem C9_amended_assignZones_frame (piF : ℚ) (heads : List Head)
    (hnd : (heads.map (·.id)).Nodup) : AssignFrameSpec piF heads := by
  have hinj := List.inj_on_of_nodup_map hnd
  have hperm : (((assignZones piF heads).1.map (·.heads)).flatten).Perm
      ((heads.filter (fun h => h.type ≠ "quick-coupler")).map (·.id)) := by
    have hflat : (((assignZones piF heads).1.map (·.heads)).flatten) =
        ((groupKeys heads).map (fun k => if k = "quick-coupler" then []
          else (heads.filter (fun h => h.type = k)).map (·.id))).flatten := by
      show ((((groupKeys heads).foldl (azFold piF heads)
        ⟨[], 1, heads⟩).zones.map (·.heads)).flatten) = _
      rw [azfold_zoneheads]
      rfl
    rw [hflat]
    refine (concat_keyfilters_perm heads (groupKeys heads)
      (groupKeys_nodup heads)).trans (List.Perm.of_eq (congrArg _ ?_))
    refine List.filter_congr ?_
    intro a ha
    simp [groupKeys_complete heads a ha]
  have hndflat : (((assignZones piF heads).1.map (·.heads)).flatten).Nodup := by
    rw [hperm.nodup_iff]
    exact ((List.filter_sublist heads).map (·.id)).nodup hnd
  have hother : ∀ (h0 : Head), h0 ∈ heads →
      ∀ k, k ≠ h0.type →
        h0.id ∉ (heads.filter (fun h => h.type = k)).map (·.id) := by
    intro h0 hm0 k hk hmem
    rcases List.mem_map.1 hmem with ⟨m, hmf, hmid⟩
    rcases List.mem_filter.1 hmf with ⟨hmh, hmt⟩
    have : m = h0 := hinj hmh hm0 hmid
    subst this
    have hmt2 : m.type = k := by simpa using hmt
    exact hk hmt2.symm
  refine ⟨assignZones_zonly piF heads, hperm, ?_, ?_⟩
  · intro h0 hm0 hqc
    have hfil : h0.id ∈ (heads.filter
        (fun h => h.type = h0.type)).map (·.id) :=
      List.mem_map.2 ⟨h0, List.mem_filter.2 ⟨hm0, by simp⟩, rfl⟩
    have hndfil : ((heads.filter
        (fun h => h.type = h0.type)).map (·.id)).Nodup :=
      ((List.filter_sublist heads).map (·.id)).nodup hnd
    obtain ⟨z, hz, hzin, hby⟩ := azfold_byId_hit piF heads (groupKeys heads)
      ⟨[], 1, heads⟩ h0.id h0.type (groupKeys_nodup heads)
      (groupKeys_complete heads h0 hm0) hqc hfil
      (fun k hk hne => hother h0 hm0 k hne) hndfil
    refine ⟨z, hz, hzin, ?_, ?_⟩
    · have hinit : byId (⟨[], 1, heads⟩ : AZAcc).upd h0.id = some h0 :=
        byId_eq_self hnd hm0
      show byId (assignZones piF heads).2 h0.id = _
      have : (assignZones piF heads).2 =
          ((groupKeys heads).foldl (azFold piF heads) ⟨[], 1, heads⟩).upd := rfl
      rw [this, hby, hinit]
      rfl
    · intro z2 hz2 hzin2
      exact flatten_nodup_unique (·.heads) (assignZones piF heads).1 hndflat
        z2 hz2 z hz h0.id hzin2 hzin
  · intro h0 hm0 hqc
    have hout : ∀ k ∈ groupKeys heads, k = "quick-coupler" ∨
        h0.id ∉ (heads.filter (fun h => h.type = k)).map (·.id) := by
      intro k hk
      by_cases hkq : k = "quick-coupler"
      · exact Or.inl hkq
      · exact Or.inr (hother h0 hm0 k (fun hc => hkq (hc ▸ hqc)))
    obtain ⟨hupd, hzones⟩ := azfold_byId_out piF heads (groupKeys heads)
      ⟨[], 1, heads⟩ h0.id hout
    constructor
    · show byId (assignZones piF heads).2 h0.id = _
      have : (assignZones piF heads).2 =
          ((groupKeys heads).foldl (azFold piF heads) ⟨[], 1, heads⟩).upd := rfl
      rw [this, hupd]
      exact byId_eq_self hnd hm0
    · intro z hz
      have hz2 : z ∈ ((groupKeys heads).foldl (azFold piF heads)
          ⟨[], 1, heads⟩).zones := hz
      rcases hzones z hz2 with hin | hno
      · simp at hin
      · exact hno

/-- **C9 (counterexample).**  On an input head list with a duplicated id,
the single produced zone lists the id twice, yet the second head's
`zoneId` stays empty: the claim's clause that every non-quick-coupler
head's `zoneId` equals the id of the zone listing it fails for the head at
index 1, so the claim is false for arbitrary input lists (it needs the
distinct-id amendment). -/
theorem C9_duplicate_id_counterexample :
    ((assignZones 0 [dupHeadA, dupHeadB]).1.map (·.heads)) = [["H-1", "H-1"]] ∧
      ((assignZones 0 [dupHeadA, dupHeadB]).2.map (·.zoneId)) = ["Z-1", ""] ∧
      ((assignZones 0 [dupHeadA, dupHeadB]).1.map (·.id)) = ["Z-1"] := by
  with_unfolding_all decide

/-- Witness for the amended C9 on the one-spray-head input. -/
theorem C9_amended_assignZones_frame_witness :
    (([sprayHead].map (·.id)).Nodup) ∧ AssignFrameSpec 0 [sprayHead] :=
  ⟨by with_unfolding_all decide,
    C9_amended_assignZones_frame 0 [sprayHead] (by with_unfolding_all decide)⟩

/-! ## Claims C7 and C10 : master-valve agreement and dead drip paths -/

/-- Right-membership inversion for `Forall₂`. -/
theorem forall₂_mem_right {R : Head → Head → Prop} :
    ∀ {l l2 : List Head}, List.Forall₂ R l l2 → ∀ b ∈ l2, ∃ a ∈ l, R a b := by
  intro l l2 h
  induction h with
  | nil => intro b hb; simp at hb
  | cons hab t ih =>
      intro b hb
      rcases List.mem_cons.1 hb with rfl | hb2
      · exact ⟨_, List.mem_cons_self _ _, hab⟩
      · obtain ⟨a, ha, har⟩ := ih b hb2
        exact ⟨a, List.mem_cons_of_mem _ ha, har⟩

/-- Fold membership lemma remembering that the step argument is a member
of the folded list. -/
theorem mem_foldl_of_step_mem {σ α β : Type} (proj : σ → List β)
    (P : β → Prop) (l : List α) (step : σ → α → σ)
    (hstep : ∀ s a, a ∈ l → ∀ h ∈ proj (step s a), h ∈ proj s ∨ P h) :
    ∀ (s : σ) (h : β), h ∈ proj (l.foldl step s) → h ∈ proj s ∨ P h := by
  induction l with
  | nil => intro s h hm; exact Or.inl hm
  | cons a t ih =>
      intro s h hm
      rcases ih (fun s2 a2 ha2 => hstep s2 a2 (List.mem_cons_of_mem a ha2))
          (step s a) h hm with hin | hp
      · exact hstep s a (List.mem_cons_self a t) h hin
      · exact Or.inr hp

/-- `gridHeadType` never yields `"drip"` or `"quick-coupler"`. -/
theorem gridHeadType_ne (c : String) :
    gridHeadType c ≠ "drip" ∧ gridHeadType c ≠ "quick-coupler" := by
  rw [gridHeadType]
  split_ifs <;> exact ⟨by decide, by decide⟩

/-- Every placed head has a non-drip type and an allowed model. -/
theorem placeAllHeads_type_model (site : SiteAnalysis) (proj : ProjectInput) :
    ∀ h ∈ placeAllHeads site proj,
      h.type ≠ "drip" ∧ h.model ∈ allowedModels := by
  refine placeAllHeads_forall
    (fun h => h.type ≠ "drip" ∧ h.model ∈ allowedModels) site proj ?_ ?_
  · intro cnt zone ath
    refine placeHeadsInZone_forall _ cnt zone ath ?_
    intro hid bb pt
    constructor
    · exact (gridHeadType_ne _).1
    · show (selectHeadForZone zone.type (max zone.widthFt zone.lengthFt)
        ath).model ∈ allowedModels
      have hm := selectHeadForZone_mem zone.type
        (max zone.widthFt zone.lengthFt) ath
      simp only [List.mem_cons, List.not_mem_nil, or_false] at hm
      rcases hm with h | h | h | h | h | h <;> rw [h] <;>
        with_unfolding_all decide
  · intro hid pos
    constructor
    · show ("quick-coupler" : String) ≠ "drip"
      decide
    · show (findHead "44rc").model ∈ allowedModels
      with_unfolding_all decide

/-- The design's final head list keeps types and models (only `zoneId` is
rewritten by Zone Assignment). -/
theorem assignZones_heads_type_model (piF : ℚ) (heads : List Head)
    (hok : ∀ h ∈ heads, h.type ≠ "drip" ∧ h.model ∈ allowedModels) :
    ∀ h ∈ (assignZones piF heads).2,
      h.type ≠ "drip" ∧ h.model ∈ allowedModels := by
  intro h hm
  obtain ⟨a, ha, hab⟩ := forall₂_mem_right (assignZones_zonly piF heads) h hm
  have : h.type = a.type ∧ h.model = a.model := by
    rw [hab]
    exact ⟨rfl, rfl⟩
  rw [this.1, this.2]
  exact hok a ha

/-- No zone of `assignZones` has drip kind when no input head does. -/
theorem assignZones_zones_ne_drip (piF : ℚ) (heads : List Head)
    (hok : ∀ h ∈ heads, h.type ≠ "drip") :
    ∀ z ∈ (assignZones piF heads).1, z.headType ≠ "drip" := by
  intro z hm
  obtain ⟨k, ms, hne, _, hz, hmem, _⟩ := assignZones_zones_spec piF heads z hm
  have hht : z.headType = k := by rw [hz, createZone_headType]
  rw [hht]
  cases ms with
  | nil => exact absurd rfl hne
  | cons a t =>
      have := hmem a (List.mem_cons_self a t)
      rw [← this.2]
      exact hok a this.1

/-- The by-definition projections of `routePipes`. -/
theorem routePipes_pipes_def (sqrtF : ℚ → ℚ) (site : SiteAnalysis)
    (heads : List Head) (zones : List Zone) (proj : ProjectInput) :
    (routePipes sqrtF site heads zones proj).pipes =
      (zones.foldl (routeZone sqrtF heads (pocPosOf site)
        (mainlineStartXOf site zones)
        (getMainlineSizeIn (totalGPMOf zones))) (mvPartOf site zones)).1 := rfl

/-- The valves projection of `routePipes`. -/
theorem routePipes_valves_def (sqrtF : ℚ → ℚ) (site : SiteAnalysis)
    (heads : List Head) (zones : List Zone) (proj : ProjectInput) :
    (routePipes sqrtF site heads zones proj).valves =
      (zones.foldl (routeZone sqrtF heads (pocPosOf site)
        (mainlineStartXOf site zones)
        (getMainlineSizeIn (totalGPMOf zones))) (mvPartOf site zones)).2.1 := rfl

/-- Each zone step appends pipes that are mainlines or zone laterals
(drip-supply only for drip-kind zones). -/
theorem routeZone_pipes_step (sqrtF : ℚ → ℚ) (heads : List Head)
    (pocPos : Point) (msx msz : ℚ)
    (s : List PipeSegment × List RoutedValve × ℕ) (z : Zone)
    (p : PipeSegment) (hp : p ∈ (routeZone sqrtF heads pocPos msx msz s z).1) :
    p ∈ s.1 ∨ p.type = "mainline" ∨
      p.type = (if z.headType = "drip" then "drip-supply" else "lateral") := by
  rw [routeZone] at hp
  by_cases hempty : (heads.filter (fun h => h.zoneId = z.id)).length = 0
  · rw [if_pos hempty] at hp
    exact Or.inl hp
  · rw [if_neg hempty] at hp
    have hinner := mem_foldl_of_step (fun a : List PipeSegment × ℕ => a.1)
      (fun q => q.type = (if z.headType = "drip" then "drip-supply"
        else "lateral")) _ ?_ (heads.filter (fun h => h.zoneId = z.id)) _ p hp
    · rcases hinner with hin2 | hp2
      · rcases List.mem_append.1 hin2 with hbase | hnewml
        · exact Or.inl hbase
        · rcases List.mem_singleton.1 hnewml with rfl
          exact Or.inr (Or.inl rfl)
      · exact Or.inr (Or.inr hp2)
    · intro a hd q2 hq2
      by_cases hqc : hd.type = "quick-coupler"
      · rw [if_pos hqc] at hq2
        exact Or.inl hq2
      · rw [if_neg hqc] at hq2
        rcases List.mem_append.1 hq2 with hin3 | hnew3
        · exact Or.inl hin3
        · rcases List.mem_singleton.1 hnew3 with rfl
          exact Or.inr rfl

/-- Each zone step appends only zone-typed valves. -/
theorem routeZone_valves_step (sqrtF : ℚ → ℚ) (heads : List Head)
    (pocPos : Point) (msx msz : ℚ)
    (s : List PipeSegment × List RoutedValve × ℕ) (z : Zone)
    (v : RoutedValve)
    (hv : v ∈ (routeZone sqrtF heads pocPos msx msz s z).2.1) :
    v ∈ s.2.1 ∨ v.type = "zone" := by
  rw [routeZone] at hv
  by_cases hempty : (heads.filter (fun h => h.zoneId = z.id)).length = 0
  · rw [if_pos hempty] at hv
    exact Or.inl hv
  · rw [if_neg hempty] at hv
    rcases List.mem_append.1 hv with hin | hnew
    · exact Or.inl hin
    · rcases List.mem_singleton.1 hnew with rfl
      exact Or.inr rfl

/-- Valves accumulated before the zone loop survive it. -/
theorem routeZone_valves_mono (sqrtF : ℚ → ℚ) (heads : List Head)
    (pocPos : Point) (msx msz : ℚ) (zones : List Zone) (v : RoutedValve)
    (s : List PipeSegment × List RoutedValve × ℕ) (hv : v ∈ s.2.1) :
    v ∈ (zones.foldl (routeZone sqrtF heads pocPos msx msz) s).2.1 := by
  refine foldl_pres (fun a => v ∈ a.2.1) _ ?_ zones s hv
  intro a z hin
  rw [routeZone]
  by_cases hempty : (heads.filter (fun h => h.zoneId = z.id)).length = 0
  · rwa [if_pos hempty]
  · rw [if_neg hempty]
    exact List.mem_append_left _ hin

/-- Every pipe laid by `routePipes` is a mainline or, when no zone has
drip kind, a lateral - never a drip-supply run. -/
theorem routePipes_no_drip_supply (sqrtF : ℚ → ℚ) (site : SiteAnalysis)
    (heads : List Head) (zones : List Zone) (proj : ProjectInput)
    (hz : ∀ z ∈ zones, z.headType ≠ "drip") :
    ∀ p ∈ (routePipes sqrtF site heads zones proj).pipes,
      p.type ≠ "drip-supply" := by
  intro p hm
  rw [routePipes_pipes_def] at hm
  have hres := mem_foldl_of_step_mem
    (fun s : List PipeSegment × List RoutedValve × ℕ => s.1)
    (fun q => q.type ≠ "drip-supply") zones _ ?_ _ p hm
  · rcases hres with hin | hp
    · rw [mvPartOf] at hin
      by_cases hmv : needsMasterValve (totalGPMOf zones)
      · rw [if_pos hmv] at hin
        rcases List.mem_singleton.1 hin with rfl
        show ("mainline" : String) ≠ "drip-supply"
        decide
      · rw [if_neg hmv] at hin
        simp at hin
    · exact hp
  · intro s z hzin q hq
    rcases routeZone_pipes_step sqrtF heads (pocPosOf site)
      (mainlineStartXOf site zones) (getMainlineSizeIn (totalGPMOf zones))
      s z q hq with hin | hml | hlat
    · exact Or.inl hin
    · refine Or.inr ?_
      show q.type ≠ "drip-supply"
      rw [hml]
      decide
    · refine Or.inr ?_
      show q.type ≠ "drip-supply"
      rw [hlat, if_neg (hz z hzin)]
      decide

/-- `routePipes` places a master valve iff the (routing-side) total GPM
exceeds the threshold. -/
theorem routePipes_master_iff (sqrtF : ℚ → ℚ) (site : SiteAnalysis)
    (heads : List Head) (zones : List Zone) (proj : ProjectInput) :
    (∃ v ∈ (routePipes sqrtF site heads zones proj).valves,
      v.type = "master") ↔ needsMasterValve (totalGPMOf zones) = true := by
  constructor
  · rintro ⟨v, hv, hvt⟩
    rw [routePipes_valves_def] at hv
    have hres := mem_foldl_of_step_mem
      (fun s : List PipeSegment × List RoutedValve × ℕ => s.2.1)
      (fun w => w.type = "zone") zones _ ?_ _ v hv
    · rcases hres with hin | hzone
      · rw [mvPartOf] at hin
        by_cases hmv : needsMasterValve (totalGPMOf zones)
        · exact hmv
        · rw [if_neg hmv] at hin
          simp at hin
      · rw [hvt] at hzone
        exact absurd hzone (by decide)
    · intro s z hzin w hw
      exact routeZone_valves_step sqrtF heads _ _ _ s z w hw
  · intro hmv
    rw [routePipes_valves_def]
    have hx : ∃ w ∈ (mvPartOf site zones).2.1, w.type = "master" := by
      rw [mvPartOf, if_pos hmv]
      exact ⟨_, List.mem_singleton.2 rfl, rfl⟩
    rcases hx with ⟨w, hw, hwt⟩
    exact ⟨w, routeZone_valves_mono sqrtF heads _ _ _ zones w _ hw, hwt⟩

/-- `jsRound` is the identity on integers. -/
theorem jsRound_intCast (n : ℤ) : jsRound (n : ℚ) = n :=
  jsRound_of_bounds _ n (by linarith) (by linarith)

/-- `roundTo1` is the identity on integer multiples of one tenth (every
total a zone can carry). -/
theorem roundTo1_tenth (n : ℤ) : roundTo1 ((n : ℚ) / 10) = (n : ℚ) / 10 := by
  rw [roundTo1]
  have h : (n : ℚ) / 10 * 10 = (n : ℚ) := by ring
  rw [h, jsRound_intCast]

/-- `roundTo1` always lands on a multiple of one tenth. -/
theorem roundTo1_is_tenth (q : ℚ) : ∃ n : ℤ, roundTo1 q = (n : ℚ) / 10 :=
  ⟨jsRound (q * 10), rfl⟩

/-- Every zone's stored `totalGPM` is a multiple of one tenth. -/
theorem assignZones_totalGPM_tenth (piF : ℚ) (heads : List Head) :
    ∀ z ∈ (assignZones piF heads).1, ∃ n : ℤ, z.totalGPM = (n : ℚ) / 10 := by
  intro z hm
  obtain ⟨k, ms, _, _, hz, _, _⟩ := assignZones_zones_spec piF heads z hm
  rw [hz, createZone_totalGPM]
  exact roundTo1_is_tenth _

/-- Summing tenths from a tenth start stays a tenth. -/
theorem foldl_gpm_tenth (zones : List Zone)
    (h : ∀ z ∈ zones, ∃ n : ℤ, z.totalGPM = (n : ℚ) / 10) :
    ∀ (s : ℚ), (∃ n : ℤ, s = (n : ℚ) / 10) →
      ∃ n : ℤ, zones.foldl (fun s z => s + z.totalGPM) s = (n : ℚ) / 10 := by
  induction zones with
  | nil => intro s hs; exact hs
  | cons z t ih =>
      intro s hs
      rw [List.foldl_cons]
      refine ih (fun z2 hz2 => h z2 (List.mem_cons_of_mem z hz2)) _ ?_
      obtain ⟨n, hn⟩ := hs
      obtain ⟨m, hmz⟩ := h z (List.mem_cons_self z t)
      exact ⟨n + m, by rw [hn, hmz]; push_cast; ring⟩

/-- The material stage's re-rounding of the summed zone totals is the
identity: zone totals are tenths, so their sum is a fixed point of
`roundTo1`. -/
theorem totalGPMOf_roundTo1 (piF : ℚ) (heads : List Head) :
    roundTo1 (totalGPMOf (assignZones piF heads).1) =
      totalGPMOf (assignZones piF heads).1 := by
  obtain ⟨n, hn⟩ := foldl_gpm_tenth (assignZones piF heads).1
    (assignZones_totalGPM_tenth piF heads) 0 ⟨0, by norm_num⟩
  have e : totalGPMOf (assignZones piF heads).1 =
      (assignZones piF heads).1.foldl (fun s z => s + z.totalGPM) 0 := rfl
  rw [e, hn, roundTo1_tenth]

/-- Keys of a `bumpCount` step: the bumped key or an existing key. -/
theorem bumpCount_keys (cs : List (String × ℕ)) (k : String) :
    ∀ p ∈ bumpCount cs k, p.1 = k ∨ ∃ q ∈ cs, q.1 = p.1 := by
  intro p hp
  rw [bumpCount] at hp
  split at hp
  · rcases List.mem_map.1 hp with ⟨q, hq, hqe⟩
    refine Or.inr ⟨q, hq, ?_⟩
    by_cases hq1 : q.1 = k
    · rw [if_pos hq1] at hqe
      rw [← hqe]
    · rw [if_neg hq1] at hqe
      rw [← hqe]
  · rcases List.mem_append.1 hp with hin | hnew
    · exact Or.inr ⟨p, hin, rfl⟩
    · rcases List.mem_singleton.1 hnew with rfl
      exact Or.inl rfl

/-- Every key of the `headCounts` record is `"44RC"` or some head's
model. -/
theorem headCounts_keys (heads : List Head) :
    ∀ s ∈ (headCounts heads).map (fun p => p.1),
      s = "44RC" ∨ ∃ h ∈ heads, h.model = s := by
  intro s hs
  rw [headCounts] at hs
  have hres := mem_foldl_of_step_mem
    (fun cs : List (String × ℕ) => cs.map (fun p => p.1))
    (fun s2 => s2 = "44RC" ∨ ∃ h ∈ heads, h.model = s2) heads _ ?_ _ s hs
  · rcases hres with h0 | hp
    · simp at h0
    · exact hp
  · intro cs h hin s2 hs2
    rcases List.mem_map.1 hs2 with ⟨p, hp, rfl⟩
    rcases bumpCount_keys cs _ p hp with hk | ⟨q, hq, hq1⟩
    · refine Or.inr ?_
      rw [hk]
      by_cases hqc : h.type = "quick-coupler"
      · rw [if_pos hqc]
        exact Or.inl rfl
      · rw [if_neg hqc]
        exact Or.inr ⟨h, hin, rfl⟩
    · exact Or.inl (hq1 ▸ List.mem_map.2 ⟨q, hq, rfl⟩)

/-- Membership in a conditional list with empty alternative. -/
theorem mem_ite_nil {α : Type} (p : Prop) [inst : Decidable p] (l : List α)
    (a : α) (h : a ∈ (if p then l else [])) : a ∈ l := by
  split at h
  · exact h
  · simp at h

/-- The model column of every material line item: a `headCounts` key, one
of the fixed catalog strings, the master-valve model guarded by the
material-side GPM test, or the drip-kit model guarded by a drip zone
existing. -/
theorem calculateMaterials_model_cases (sqrtF : ℚ → ℚ) (pd : PartialDesign) :
    ∀ it ∈ calculateMaterials sqrtF pd,
      (∃ p ∈ headCounts pd.heads, it.model = p.1) ∨
      it.model = "PEB-100" ∨ it.model = "PEB-150" ∨
      (needsMasterValve pd.totalSystemGPM = true ∧ it.model = "200-PEB") ∨
      it.model = "009M2-QT" ∨ it.model = "ESP-LXME2" ∨
      it.model = "Rain-Clik" ∨ it.model = "" ∨ it.model = "SJ-506" ∨
      it.model = "1419-12" ∨ it.model = "14 AWG UF, white" ∨
      it.model = "18 AWG UF, color-coded" ∨
      (0 < (pd.zones.filter (fun z => z.headType = "drip")).length ∧
        it.model = "XCZ-100-PRB-COM") := by
  intro it hit
  simp only [calculateMaterials] at hit
  rcases List.mem_append.1 hit with h1 | h1
  rcases List.mem_append.1 h1 with h2 | h2
  rcases List.mem_append.1 h2 with h3 | h3
  rcases List.mem_append.1 h3 with h4 | h4
  rcases List.mem_append.1 h4 with h5 | h5
  rcases List.mem_append.1 h5 with h6 | h6
  rcases List.mem_append.1 h6 with h7 | h7
  rcases List.mem_append.1 h7 with hh | hrest
  · rcases List.mem_map.1 hh with ⟨mc, hmc, hf⟩
    have hm : it.model = mc.1 := by
      rw [← hf]
      cases SPRINKLER_HEADS.find? (fun h2 => h2.model = mc.1) <;> rfl
    exact Or.inl ⟨mc, hmc, hm⟩
  · rcases List.mem_append.1 hrest with hv1 | hv2
    · have hm := mem_ite_nil _ _ _ hv1
      rcases List.mem_singleton.1 hm with rfl
      exact Or.inr (Or.inl (by
        show (findValve "peb-100").model = "PEB-100"
        with_unfolding_all decide))
    · have hm := mem_ite_nil _ _ _ hv2
      rcases List.mem_singleton.1 hm with rfl
      exact Or.inr (Or.inr (Or.inl (by
        show (findValve "peb-150").model = "PEB-150"
        with_unfolding_all decide)))
  · split at h7
    · rename_i hc
      rcases List.mem_singleton.1 h7 with rfl
      exact Or.inr (Or.inr (Or.inr (Or.inl
        ⟨hc, by with_unfolding_all decide⟩)))
    · simp at h7
  · simp only [List.mem_cons, List.not_mem_nil, or_false] at h6
    rcases h6 with rfl | rfl | rfl
    · exact Or.inr (Or.inr (Or.inr (Or.inr (Or.inl
        (by with_unfolding_all decide)))))
    · exact Or.inr (Or.inr (Or.inr (Or.inr (Or.inr (Or.inl
        (by with_unfolding_all decide))))))
    · exact Or.inr (Or.inr (Or.inr (Or.inr (Or.inr (Or.inr (Or.inl
        (by with_unfolding_all decide)))))))
  · rcases List.mem_map.1 h5 with ⟨kl, hkl, hf⟩
    have hm : it.model = "" := by
      rw [← hf]
    exact Or.inr (Or.inr (Or.inr (Or.inr (Or.inr (Or.inr (Or.inr
      (Or.inl hm)))))))
  · rcases List.mem_singleton.1 h4 with rfl
    exact Or.inr (Or.inr (Or.inr (Or.inr (Or.inr (Or.inr (Or.inr (Or.inr
      (Or.inl (by
        show SWING_JOINT.model = "SJ-506"
        with_unfolding_all decide)))))))))
  · rcases List.mem_singleton.1 h3 with rfl
    exact Or.inr (Or.inr (Or.inr (Or.inr (Or.inr (Or.inr (Or.inr (Or.inr
      (Or.inr (Or.inl (by
        show VALVE_BOX_JUMBO.model = "1419-12"
        with_unfolding_all decide))))))))))
  · simp only [List.mem_cons, List.not_mem_nil, or_false] at h2
    rcases h2 with rfl | rfl
    · exact Or.inr (Or.inr (Or.inr (Or.inr (Or.inr (Or.inr (Or.inr (Or.inr
        (Or.inr (Or.inr (Or.inl (by
          show WIRE_COMMON.2 = "14 AWG UF, white"
          with_unfolding_all decide)))))))))))
    · exact Or.inr (Or.inr (Or.inr (Or.inr (Or.inr (Or.inr (Or.inr (Or.inr
        (Or.inr (Or.inr (Or.inr (Or.inl
          (by
            show WIRE_ZONE.2 = "18 AWG UF, color-coded"
            with_unfolding_all decide))))))))))))
  · split at h1
    · rename_i hc
      rcases List.mem_singleton.1 h1 with rfl
      refine Or.inr (Or.inr (Or.inr (Or.inr (Or.inr (Or.inr (Or.inr (Or.inr
        (Or.inr (Or.inr (Or.inr (Or.inr
          ⟨?_, by
            show DRIP_KIT.model = "XCZ-100-PRB-COM"
            with_unfolding_all decide⟩)))))))))))
      exact hc
    · simp at h1

/-- The material schedule carries a `200-PEB` line item exactly when the
material-side threshold test fires, provided every head's model is one of
the placeable models. -/
theorem calculateMaterials_master_iff (sqrtF : ℚ → ℚ) (pd : PartialDesign)
    (hheads : ∀ h ∈ pd.heads, h.model ∈ allowedModels) :
    ((∃ it ∈ calculateMaterials sqrtF pd, it.model = "200-PEB") ↔
      needsMasterValve pd.totalSystemGPM = true) := by
  constructor
  · rintro ⟨it, hit, hm⟩
    rcases calculateMaterials_model_cases sqrtF pd it hit with
      ⟨p, hp, hpm⟩ | h | h | ⟨hc, _⟩ | h | h | h | h | h | h | h | h | ⟨_, h⟩
    · rw [hm] at hpm
      rcases headCounts_keys pd.heads p.1 (List.mem_map.2 ⟨p, hp, rfl⟩) with
        h44 | ⟨h2, hh2, hh2m⟩
      · rw [← hpm] at h44
        exact absurd h44 (by decide)
      · have hal := hheads h2 hh2
        rw [hh2m, ← hpm] at hal
        exact absurd hal (by decide)
    · rw [hm] at h
      exact absurd h (by decide)
    · rw [hm] at h
      exact absurd h (by decide)
    · exact hc
    · rw [hm] at h
      exact absurd h (by decide)
    · rw [hm] at h
      exact absurd h (by decide)
    · rw [hm] at h
      exact absurd h (by decide)
    · rw [hm] at h
      exact absurd h (by decide)
    · rw [hm] at h
      exact absurd h (by decide)
    · rw [hm] at h
      exact absurd h (by decide)
    · rw [hm] at h
      exact absurd h (by decide)
    · rw [hm] at h
      exact absurd h (by decide)
    · rw [hm] at h
      exact absurd h (by decide)
  · intro hmv
    refine ⟨⟨(findValve "200-peb").name, (findValve "200-peb").manufacturer,
      (findValve "200-peb").model, 1, "EA"⟩, ?_,
      by with_unfolding_all decide⟩
    simp only [calculateMaterials]
    refine List.mem_append_left _ (List.mem_append_left _
      (List.mem_append_left _ (List.mem_append_left _ (List.mem_append_left _
        (List.mem_append_left _ (List.mem_append_right _ ?_))))))
    rw [if_pos hmv]
    exact List.mem_singleton.2 rfl

/-- **C7.**  Material Calculation emits its master-valve line item exactly
when Pipe Routing placed a master valve: the material stage recomputes the
threshold from the design's rounded total system GPM, but every zone total
is a multiple of one tenth, so the re-rounded sum equals the exact sum the
routing stage tested. -/
theorem C7_master_valve_consistency (sqrtF : ℚ → ℚ) (piF : ℚ)
    (site : SiteAnalysis) (proj : ProjectInput) :
    ((∃ it ∈ (generateIrrigationDesign sqrtF piF site proj).materialSchedule,
        it.model = "200-PEB") ↔
      (∃ v ∈ (generateIrrigationDesign sqrtF piF site proj).valves,
        v.type = "master")) := by
  have hheads : ∀ h ∈ (pdOf sqrtF piF site proj).heads,
      h.model ∈ allowedModels := by
    intro h hm
    exact (assignZones_heads_type_model piF (placeAllHeads site proj)
      (placeAllHeads_type_model site proj) h hm).2
  have e1 : (generateIrrigationDesign sqrtF piF site proj).materialSchedule
      = calculateMaterials sqrtF (pdOf sqrtF piF site proj) := rfl
  have e2 : (generateIrrigationDesign sqrtF piF site proj).valves
      = (routePipes sqrtF site (assignZones piF (placeAllHeads site proj)).2
          (assignZones piF (placeAllHeads site proj)).1 proj).valves := rfl
  rw [e1, e2, calculateMaterials_master_iff sqrtF _ hheads,
    routePipes_master_iff sqrtF site _ _ proj]
  have e3 : (pdOf sqrtF piF site proj).totalSystemGPM
      = roundTo1 (totalGPMOf (assignZones piF (placeAllHeads site proj)).1) :=
    rfl
  rw [e3, totalGPMOf_roundTo1]

/-- **C10.**  `selectHeadForZone` never yields a drip-category spec, and
consequently the full pipeline produces no drip head, no drip zone, no
drip-supply pipe, and no drip-kit line item. -/
theorem C10_no_drip_anywhere (sqrtF : ℚ → ℚ) (piF : ℚ)
    (site : SiteAnalysis) (proj : ProjectInput) :
    (∀ (zt : String) (dim : ℚ) (ath : Bool),
        (selectHeadForZone zt dim ath).category ≠ "drip") ∧
    (∀ h ∈ (generateIrrigationDesign sqrtF piF site proj).heads,
        h.type ≠ "drip") ∧
    (∀ z ∈ (generateIrrigationDesign sqrtF piF site proj).zones,
        z.headType ≠ "drip") ∧
    (∀ p ∈ (generateIrrigationDesign sqrtF piF site proj).pipes,
        p.type ≠ "drip-supply") ∧
    (∀ it ∈ (generateIrrigationDesign sqrtF piF site proj).materialSchedule,
        it.model ≠ DRIP_KIT.model) := by
  have hraw := placeAllHeads_type_model site proj
  have hheads : ∀ h ∈ (assignZones piF (placeAllHeads site proj)).2,
      h.type ≠ "drip" ∧ h.model ∈ allowedModels :=
    assignZones_heads_type_model piF (placeAllHeads site proj) hraw
  have hzones : ∀ z ∈ (assignZones piF (placeAllHeads site proj)).1,
      z.headType ≠ "drip" :=
    assignZones_zones_ne_drip piF (placeAllHeads site proj)
      (fun h hm => (hraw h hm).1)
  refine ⟨?_, ?_, ?_, ?_, ?_⟩
  · intro zt dim ath
    exact (selectHeadForZone_category zt dim ath).1
  · intro h hm
    exact (hheads h hm).1
  · intro z hm
    exact hzones z hm
  · intro p hm
    exact routePipes_no_drip_supply sqrtF site
      (assignZones piF (placeAllHeads site proj)).2
      (assignZones piF (placeAllHeads site proj)).1 proj hzones p hm
  · intro it hit
    have hit2 : it ∈ calculateMaterials sqrtF (pdOf sqrtF piF site proj) :=
      hit
    rcases calculateMaterials_model_cases sqrtF _ it hit2 with
      ⟨p, hp, hpm⟩ | h | h | ⟨_, h⟩ | h | h | h | h | h | h | h | h
      | ⟨hlen, _⟩
    · rcases headCounts_keys (pdOf sqrtF piF site proj).heads p.1
        (List.mem_map.2 ⟨p, hp, rfl⟩) with h44 | ⟨h2, hh2, hh2m⟩
      · rw [hpm, h44]
        decide
      · have hal := (hheads h2 hh2).2
        rw [hh2m] at hal
        rw [hpm]
        intro hc
        rw [hc] at hal
        exact absurd hal (by decide)
    · rw [h]; decide
    · rw [h]; decide
    · rw [h]; decide
    · rw [h]; decide
    · rw [h]; decide
    · rw [h]; decide
    · rw [h]; decide
    · rw [h]; decide
    · rw [h]; decide
    · rw [h]; decide
    · rw [h]; decide
    · have hnil : ((pdOf sqrtF piF site proj).zones.filter
          (fun z => z.headType = "drip")) = [] := by
        refine List.filter_eq_nil_iff.2 ?_
        intro z hz
        simpa using hzones z hz
      rw [hnil] at hlen
      simp at hlen

/-! ## Claim C8 : point-in-polygon at the centroid -/

/-- `vtx` only depends on the index modulo the length. -/
theorem vtx_mod (l : List Point) (k : ℕ) : vtx l (k % l.length) = vtx l k := by
  rw [vtx, vtx, Nat.mod_mod_of_dvd _ dvd_rfl]

/-- Congruent indices give the same vertex. -/
theorem vtx_congr (l : List Point) (i j : ℕ)
    (h : i % l.length = j % l.length) : vtx l i = vtx l j := by
  rw [vtx, vtx, h]

/-- In-range indices read the list entry. -/
theorem vtx_eq_getElem (l : List Point) (i : ℕ) (h : i < l.length) :
    vtx l i = l[i] := by
  rw [vtx, Nat.mod_eq_of_lt h]
  exact List.getD_eq_getElem l _ h

/-- Every cyclic vertex of a nonempty list is a member. -/
theorem vtx_mem (l : List Point) (i : ℕ) (h : l ≠ []) : vtx l i ∈ l := by
  have hn : 0 < l.length := List.length_pos.2 h
  have h2 : i % l.length < l.length := Nat.mod_lt _ hn
  rw [vtx, List.getD_eq_getElem l _ h2]
  exact List.getElem_mem h2

/-- The cyclically previous index, characterized without `%`. -/
theorem prev_mod (n i : ℕ) (hn : 0 < n) (hi : i < n) :
    (i + n - 1) % n = if i = 0 then n - 1 else i - 1 := by
  by_cases h0 : i = 0
  · subst h0
    rw [if_pos rfl]
    have : 0 + n - 1 = n - 1 := by omega
    rw [this]
    exact Nat.mod_eq_of_lt (by omega)
  · rw [if_neg h0]
    have : i + n - 1 = (i - 1) + n := by omega
    rw [this, Nat.add_mod_right]
    exact Nat.mod_eq_of_lt (by omega)

/-- Stepping one forward from a reduced previous index returns to the
start, modulo `n`. -/
theorem mod_helper (n A : ℕ) (hn : 0 < n) :
    ((A + 1) % n + n - 1) % n = A % n := by
  have h1 : (A + 1) % n + n - 1 = (A + 1) % n + (n - 1) := by omega
  rw [h1, Nat.add_mod, Nat.mod_mod_of_dvd _ dvd_rfl, ← Nat.add_mod]
  have h2 : (A + 1) + (n - 1) = A + n := by omega
  rw [h2, Nat.add_mod_right]

/-- A fold of conditional negations computes the parity of the matching
count. -/
theorem foldl_toggle (f : ℕ → Bool) :
    ∀ (L : List ℕ) (b : Bool),
      L.foldl (fun ins i => if f i then !ins else ins) b =
        (if L.countP f % 2 = 1 then !b else b) := by
  intro L
  induction L with
  | nil => intro b; simp
  | cons a t ih =>
      intro b
      rw [List.foldl_cons, ih]
      by_cases hfa : f a = true
      · rw [List.countP_cons_of_pos _ _ hfa, if_pos hfa]
        by_cases hp : t.countP f % 2 = 1
        · rw [if_pos hp, if_neg (by omega), Bool.not_not]
        · rw [if_neg hp, if_pos (by omega)]
      · rw [List.countP_cons_of_neg _ _ hfa, if_neg hfa]

/-- `isPointInPolygon` returns the parity of the edge-flip count. -/
theorem isPointInPolygon_parity (p : Point) (poly : List Point) :
    isPointInPolygon p poly =
      decide ((List.range poly.length).countP
        (fun i => edgeFlip p (vtx poly i) (vtx poly (i + poly.length - 1)))
          % 2 = 1) := by
  have e : isPointInPolygon p poly = (List.range poly.length).foldl
      (fun inside i =>
        if edgeFlip p (vtx poly i) (vtx poly (i + poly.length - 1))
        then !inside else inside) false := rfl
  have h := foldl_toggle
    (fun i => edgeFlip p (vtx poly i) (vtx poly (i + poly.length - 1)))
    (List.range poly.length) false
  rw [e, h]
  by_cases hc : (List.range poly.length).countP
      (fun i => edgeFlip p (vtx poly i) (vtx poly (i + poly.length - 1)))
        % 2 = 1 <;> simp [hc]

/-- The flip test is symmetric in the two edge endpoints: the crossing
abscissa is a property of the undirected edge. -/
theorem edgeFlip_symm (p a b : Point) : edgeFlip p a b = edgeFlip p b a := by
  by_cases ha : a.y > p.y <;> by_cases hb : b.y > p.y
  · simp [edgeFlip, ha, hb]
  · have hne : b.y - a.y ≠ 0 := by
      have := le_of_not_lt hb
      intro hc
      have : b.y = a.y := by linarith
      exact absurd ha (by rw [← this]; exact not_lt.2 (le_of_not_lt hb))
    have hne2 : a.y - b.y ≠ 0 := fun hc => hne (by linarith)
    have hX : (b.x - a.x) * (p.y - a.y) / (b.y - a.y) + a.x =
        (a.x - b.x) * (p.y - b.y) / (a.y - b.y) + b.x := by
      field_simp
      ring
    rw [edgeFlip, edgeFlip, hX]
    cases hd1 : decide (a.y > p.y) <;> cases hd2 : decide (b.y > p.y) <;> rfl
  · have hne : b.y - a.y ≠ 0 := by
      have := le_of_not_lt ha
      intro hc
      have : b.y = a.y := by linarith
      exact absurd hb (by rw [this]; exact not_lt.2 (le_of_not_lt ha))
    have hne2 : a.y - b.y ≠ 0 := fun hc => hne (by linarith)
    have hX : (b.x - a.x) * (p.y - a.y) / (b.y - a.y) + a.x =
        (a.x - b.x) * (p.y - b.y) / (a.y - b.y) + b.x := by
      field_simp
      ring
    rw [edgeFlip, edgeFlip, hX]
    cases hd1 : decide (a.y > p.y) <;> cases hd2 : decide (b.y > p.y) <;> rfl
  · simp [edgeFlip, ha, hb]

/-- A list of rationals all exceeding `c` sums to more than `c` times the
length. -/
theorem list_sum_gt (L : List ℚ) (c : ℚ) (hne : L ≠ [])
    (h : ∀ a ∈ L, c < a) : c * L.length < L.sum := by
  induction L with
  | nil => exact absurd rfl hne
  | cons a t ih =>
      by_cases ht : t = []
      · subst ht
        have := h a (List.mem_cons_self a [])
        simp only [List.sum_cons, List.sum_nil, add_zero, List.length_cons,
          List.length_nil]
        push_cast
        linarith
      · have h1 := ih ht (fun x hx => h x (List.mem_cons_of_mem a hx))
        have h2 := h a (List.mem_cons_self a t)
        simp only [List.sum_cons, List.length_cons]
        push_cast
        linarith

/-- A list of rationals bounded by `c` sums to at most `c` times the
length. -/
theorem list_sum_le (L : List ℚ) (c : ℚ) (h : ∀ a ∈ L, a ≤ c) :
    L.sum ≤ c * L.length := by
  induction L with
  | nil => simp
  | cons a t ih =>
      have h1 := ih (fun x hx => h x (List.mem_cons_of_mem a hx))
      have h2 := h a (List.mem_cons_self a t)
      simp only [List.sum_cons, List.length_cons]
      push_cast
      linarith

/-- If every entry is at most `c` yet the sum reaches `c` times the
length, every entry equals `c`. -/
theorem list_all_eq_of_le_of_sum (L : List ℚ) (c : ℚ)
    (hle : ∀ a ∈ L, a ≤ c) (hsum : c * L.length ≤ L.sum) :
    ∀ a ∈ L, a = c := by
  induction L with
  | nil => intro a ha; simp at ha
  | cons a t ih =>
      have hts := list_sum_le t c (fun x hx => hle x (List.mem_cons_of_mem a hx))
      have ha := hle a (List.mem_cons_self a t)
      simp only [List.sum_cons, List.length_cons] at hsum
      push_cast at hsum
      intro x hx
      rcases List.mem_cons.1 hx with rfl | hx2
      · linarith
      · refine ih (fun y hy => hle y (List.mem_cons_of_mem a hy)) ?_ x hx2
        linarith

/-- A sum of nonnegative terms with one positive term is positive. -/
theorem list_sum_pos_of_nonneg (f : ℕ → ℚ) :
    ∀ (L : List ℕ), (∀ a ∈ L, 0 ≤ f a) →
      ∀ a ∈ L, 0 < f a → 0 < (L.map f).sum := by
  intro L
  induction L with
  | nil => intro _ a ha; simp at ha
  | cons b t ih =>
      intro h0 a ha hpos
      rw [List.map_cons, List.sum_cons]
      rcases List.mem_cons.1 ha with rfl | ha2
      · have ht : 0 ≤ (t.map f).sum := by
          refine List.sum_nonneg ?_
          intro x hx
          rcases List.mem_map.1 hx with ⟨y, hy, rfl⟩
          exact h0 y (List.mem_cons_of_mem a hy)
        exact add_pos_of_pos_of_nonneg hpos ht
      · have hb := h0 b (List.mem_cons_self b t)
        exact add_pos_of_nonneg_of_pos hb
          (ih (fun x hx => h0 x (List.mem_cons_of_mem b hx)) a ha2 hpos)

/-- Summing a function of the cyclic vertices over one period is summing
it over the list. -/
theorem range_map_vtx (l : List Point) (f : Point → ℚ) :
    ((List.range l.length).map (fun j => f (vtx l j))).sum =
      (l.map f).sum := by
  suffices h : ∀ (m : List Point),
      (List.range m.length).map (fun j => f (vtx m j)) = m.map f by rw [h]
  intro m
  refine List.ext_getElem (by simp) ?_
  intro k h1 h2
  simp only [List.getElem_map, List.getElem_range]
  rw [vtx_eq_getElem m k (by simpa using h2)]

/-- The summed cross products against a fixed edge, in closed form. -/
theorem cross_sum (a b : Point) (L : List Point) :
    (L.map (fun q => cross a b q)).sum =
      (b.x - a.x) * ((L.map (fun q => q.y)).sum - L.length * a.y) -
      (b.y - a.y) * ((L.map (fun q => q.x)).sum - L.length * a.x) := by
  induction L with
  | nil => simp
  | cons q t ih =>
      simp only [List.map_cons, List.sum_cons, List.length_cons]
      rw [ih, cross]
      push_cast
      ring

/-- The cross product against the centroid, summed form (cleared of the
division by the vertex count). -/
theorem cross_centroid (a b : Point) (l : List Point) (hn : 0 < l.length) :
    cross a b (centroid l) * l.length =
      (l.map (fun q => cross a b q)).sum := by
  have hne : (l.length : ℚ) ≠ 0 := by
    exact_mod_cast Nat.pos_iff_ne_zero.1 hn
  have e1 : (centroid l).x = (l.map (fun q => q.x)).sum / l.length := rfl
  have e2 : (centroid l).y = (l.map (fun q => q.y)).sum / l.length := rfl
  rw [cross, e1, e2, cross_sum]
  field_simp

/-- Strict convexity restated for the loop's edges `prev -> cur`. -/
theorem convex_edge (l : List Point) (hc : StrictConvex l) (i m : ℕ)
    (hi : i < l.length) (hm : m < l.length)
    (h1 : m ≠ (i + l.length - 1) % l.length) (h2 : m ≠ i) :
    0 < cross (vtx l (i + l.length - 1)) (vtx l i) (vtx l m) := by
  have hn : 0 < l.length := by omega
  have hi' : (i + l.length - 1) % l.length < l.length := Nat.mod_lt _ hn
  have key : ((i + l.length - 1) % l.length + 1) % l.length = i := by
    have h3 : i + l.length - 1 = (i + l.length - 1) % l.length +
        l.length * ((i + l.length - 1) / l.length) := (Nat.mod_add_div _ _).symm
    rw [prev_mod l.length i hn hi]
    by_cases h0 : i = 0
    · subst h0
      rw [if_pos rfl]
      have : l.length - 1 + 1 = l.length := by omega
      rw [this, Nat.mod_self]
    · rw [if_neg h0]
      have : i - 1 + 1 = i := by omega
      rw [this, Nat.mod_eq_of_lt hi]
  have h := hc ((i + l.length - 1) % l.length) hi' m hm h1
    (by rw [key]; exact h2)
  rw [vtx_mod] at h
  have e2 : vtx l ((i + l.length - 1) % l.length + 1) = vtx l i := by
    apply vtx_congr
    rw [key, Nat.mod_eq_of_lt hi]
  rw [e2] at h
  exact h

/-- The centroid lies strictly left of every loop edge of a strictly
convex counter-clockwise vertex list. -/
theorem centroid_cross_pos (l : List Point) (hc : StrictConvex l)
    (h3 : 3 ≤ l.length) (i : ℕ) (hi : i < l.length) :
    0 < cross (vtx l (i + l.length - 1)) (vtx l i) (centroid l) := by
  have hn : 0 < l.length := by omega
  have hterm0 : ∀ m ∈ List.range l.length,
      0 ≤ cross (vtx l (i + l.length - 1)) (vtx l i) (vtx l m) := by
    intro m hm
    rw [List.mem_range] at hm
    by_cases hm1 : m = (i + l.length - 1) % l.length
    · have e : vtx l m = vtx l (i + l.length - 1) := by
        rw [hm1]
        exact vtx_mod l _
      rw [e]
      have hz : cross (vtx l (i + l.length - 1)) (vtx l i)
          (vtx l (i + l.length - 1)) = 0 := by rw [cross]; ring
      rw [hz]
    · by_cases hm2 : m = i
      · rw [hm2]
        have hz : cross (vtx l (i + l.length - 1)) (vtx l i) (vtx l i) = 0 := by
          rw [cross]; ring
        rw [hz]
      · exact le_of_lt (convex_edge l hc i m hi hm hm1 hm2)
  have hex : ∃ m ∈ List.range l.length,
      0 < cross (vtx l (i + l.length - 1)) (vtx l i) (vtx l m) := by
    set q := (i + l.length - 1) % l.length with hqdef
    by_cases ha0 : 0 = q ∨ 0 = i
    · by_cases ha1 : 1 = q ∨ 1 = i
      · exact ⟨2, List.mem_range.2 (by omega),
          convex_edge l hc i 2 hi (by omega) (by omega) (by omega)⟩
      · push_neg at ha1
        exact ⟨1, List.mem_range.2 (by omega),
          convex_edge l hc i 1 hi (by omega) ha1.1 ha1.2⟩
    · push_neg at ha0
      exact ⟨0, List.mem_range.2 (by omega),
        convex_edge l hc i 0 hi (by omega) ha0.1 ha0.2⟩
  obtain ⟨m0, hm0, hp0⟩ := hex
  have hsum : 0 < ((List.range l.length).map
      (fun m => cross (vtx l (i + l.length - 1)) (vtx l i) (vtx l m))).sum :=
    list_sum_pos_of_nonneg _ _ hterm0 m0 hm0 hp0
  rw [range_map_vtx] at hsum
  have hkey := cross_centroid (vtx l (i + l.length - 1)) (vtx l i) l hn
  rw [← hkey] at hsum
  have hnQ : (0:ℚ) < (l.length : ℚ) := by exact_mod_cast hn
  rcases mul_pos_iff.1 hsum with ⟨hpos, _⟩ | ⟨_, hneg⟩
  · exact hpos
  · exact absurd hneg (not_lt.2 (le_of_lt hnQ))

/-- Between two rising edges both of whose endpoints lie strictly left of
the other, the crossing abscissae are strictly ordered. -/
theorem up_edge_X_lt (a b c d : Point) (y0 : ℚ)
    (ha : a.y ≤ y0) (hb : y0 < b.y) (hc2 : c.y ≤ y0) (hd2 : y0 < d.y)
    (h1 : 0 < cross a b c) (h2 : 0 < cross a b d) :
    Xat c d y0 < Xat a b y0 := by
  have hab : 0 < b.y - a.y := by linarith
  have hcd : 0 < d.y - c.y := by linarith
  have hcdne : d.y - c.y ≠ 0 := ne_of_gt hcd
  have ht0 : 0 ≤ (y0 - c.y) / (d.y - c.y) :=
    div_nonneg (by linarith) (le_of_lt hcd)
  have ht1 : (y0 - c.y) / (d.y - c.y) < 1 := (div_lt_one hcd).2 (by linarith)
  have hq : cross a b ⟨Xat c d y0, y0⟩ =
      (1 - (y0 - c.y) / (d.y - c.y)) * cross a b c +
        ((y0 - c.y) / (d.y - c.y)) * cross a b d := by
    rw [cross, cross, cross, Xat]
    field_simp
    ring
  have hqpos : 0 < cross a b ⟨Xat c d y0, y0⟩ := by
    rw [hq]
    have hp1 : 0 < (1 - (y0 - c.y) / (d.y - c.y)) * cross a b c :=
      mul_pos (by linarith) h1
    have hp2 : 0 ≤ ((y0 - c.y) / (d.y - c.y)) * cross a b d :=
      mul_nonneg ht0 (le_of_lt h2)
    linarith
  have hnum : 0 < (b.x - a.x) * (y0 - a.y) -
      (b.y - a.y) * (Xat c d y0 - a.x) := hqpos
  rw [← sub_pos]
  have he : Xat a b y0 - Xat c d y0 =
      ((b.x - a.x) * (y0 - a.y) - (b.y - a.y) * (Xat c d y0 - a.x)) /
        (b.y - a.y) := by
    rw [Xat]
    field_simp
    ring
  rw [he]
  exact div_pos hnum hab

/-- With the reference point strictly left of the edge `prev -> cur`, the
loop's flip test fires exactly when the edge rises across the point's
level. -/
theorem edgeFlip_up_char (p u v : Point) (hcross : 0 < cross u v p) :
    edgeFlip p v u = decide (u.y ≤ p.y ∧ p.y < v.y) := by
  by_cases hu : u.y > p.y <;> by_cases hv : v.y > p.y
  · have h1 : ¬(u.y ≤ p.y) := not_le.2 hu
    simp [edgeFlip, hu, hv, h1]
  · have hvle : v.y ≤ p.y := le_of_not_lt hv
    have hd : 0 < u.y - v.y := by linarith
    have hne : u.y - v.y ≠ 0 := ne_of_gt hd
    have hX : (u.x - v.x) * (p.y - v.y) / (u.y - v.y) + v.x - p.x =
        -cross u v p / (u.y - v.y) := by
      rw [cross]
      field_simp
      ring
    have h2 : ¬(p.x < (u.x - v.x) * (p.y - v.y) / (u.y - v.y) + v.x) := by
      have hq : -cross u v p / (u.y - v.y) < 0 :=
        div_neg_of_neg_of_pos (by linarith) hd
      intro hcon
      linarith
    have h3 : ¬(u.y ≤ p.y) := not_le.2 hu
    simp [edgeFlip, hu, hv, h2, h3]
  · have hup : u.y ≤ p.y := le_of_not_lt hu
    have hd : u.y - v.y < 0 := by linarith
    have hne : u.y - v.y ≠ 0 := ne_of_lt hd
    have hX : (u.x - v.x) * (p.y - v.y) / (u.y - v.y) + v.x - p.x =
        -cross u v p / (u.y - v.y) := by
      rw [cross]
      field_simp
      ring
    have hgt : p.x < (u.x - v.x) * (p.y - v.y) / (u.y - v.y) + v.x := by
      have hq : 0 < -cross u v p / (u.y - v.y) :=
        div_pos_of_neg_of_neg (by linarith) hd
      linarith
    simp [edgeFlip, hu, hv, hgt, hup]
  · simp [edgeFlip, hu, hv]

/-- A nodup list with a unique satisfying element has matching count 1. -/
theorem countP_eq_one (L : List ℕ) (f : ℕ → Bool) (hnd : L.Nodup) (a : ℕ)
    (ha : a ∈ L) (hfa : f a = true) (hu : ∀ b ∈ L, f b = true → b = a) :
    L.countP f = 1 := by
  rw [List.countP_eq_length_filter]
  have hm : a ∈ L.filter f := List.mem_filter.2 ⟨ha, hfa⟩
  have hall : ∀ b ∈ L.filter f, b = a := by
    intro b hb
    have h := List.mem_filter.1 hb
    exact hu b h.1 h.2
  have hndf : (L.filter f).Nodup := hnd.filter f
  cases hfl : L.filter f with
  | nil => rw [hfl] at hm; simp at hm
  | cons x t =>
      rw [hfl] at hall hndf
      have hx : x = a := hall x (List.mem_cons_self x t)
      have ht : t = [] := by
        cases t with
        | nil => rfl
        | cons y r =>
            have hy : y = a := hall y (by simp)
            rw [List.nodup_cons] at hndf
            exact absurd (by rw [hx, ← hy]; exact List.mem_cons_self y r :
              x ∈ y :: r) hndf.1
      rw [ht]
      rfl

/-- Walking from a false value to a true value passes a rising step. -/
theorem exists_transition (g : ℕ → Bool) (i1 : ℕ) (h1 : g i1 = false) :
    ∀ t, g (i1 + t) = true →
      ∃ s, s < t ∧ g (i1 + s) = false ∧ g (i1 + s + 1) = true := by
  intro t
  induction t with
  | zero =>
      intro h
      rw [Nat.add_zero, h1] at h
      exact absurd h (by decide)
  | succ t ih =>
      intro h
      cases hgv : g (i1 + t) with
      | true =>
          obtain ⟨s, hs, h2, h3⟩ := ih hgv
          exact ⟨s, by omega, h2, h3⟩
      | false => exact ⟨t, by omega, hgv, h⟩

/-- At most one loop edge of a strictly convex counter-clockwise vertex
list rises across any horizontal level. -/
theorem up_unique (l : List Point) (p : Point) (hc : StrictConvex l)
    (h3 : 3 ≤ l.length) (i j : ℕ) (hi : i < l.length) (hj : j < l.length)
    (hui : (vtx l (i + l.length - 1)).y ≤ p.y ∧ p.y < (vtx l i).y)
    (huj : (vtx l (j + l.length - 1)).y ≤ p.y ∧ p.y < (vtx l j).y) :
    i = j := by
  by_contra hne
  have hn : 0 < l.length := by omega
  by_cases hadj1 : (j + l.length - 1) % l.length = i
  · have e : vtx l (j + l.length - 1) = vtx l i := by
      rw [← vtx_mod l (j + l.length - 1), hadj1]
    rw [e] at huj
    exact absurd huj.1 (not_le.2 hui.2)
  by_cases hadj2 : (i + l.length - 1) % l.length = j
  · have e : vtx l (i + l.length - 1) = vtx l j := by
      rw [← vtx_mod l (i + l.length - 1), hadj2]
    rw [e] at hui
    exact absurd hui.1 (not_le.2 huj.2)
  have hprevne : (j + l.length - 1) % l.length ≠
      (i + l.length - 1) % l.length := by
    rw [prev_mod l.length i hn hi, prev_mod l.length j hn hj]
    split_ifs <;> omega
  have c1 : 0 < cross (vtx l (i + l.length - 1)) (vtx l i)
      (vtx l (j + l.length - 1)) := by
    have h := convex_edge l hc i ((j + l.length - 1) % l.length) hi
      (Nat.mod_lt _ hn) hprevne hadj1
    rw [vtx_mod] at h
    exact h
  have c2 : 0 < cross (vtx l (i + l.length - 1)) (vtx l i) (vtx l j) :=
    convex_edge l hc i j hi hj (fun hcon => hadj2 hcon.symm) (fun hcon => hne (hcon.symm))
  have c3 : 0 < cross (vtx l (j + l.length - 1)) (vtx l j)
      (vtx l (i + l.length - 1)) := by
    have h := convex_edge l hc j ((i + l.length - 1) % l.length) hj
      (Nat.mod_lt _ hn) (fun hcon => hprevne hcon.symm) hadj2
    rw [vtx_mod] at h
    exact h
  have c4 : 0 < cross (vtx l (j + l.length - 1)) (vtx l j) (vtx l i) :=
    convex_edge l hc j i hj hi (fun hcon => hadj1 hcon.symm) hne
  have hlt1 := up_edge_X_lt (vtx l (i + l.length - 1)) (vtx l i)
    (vtx l (j + l.length - 1)) (vtx l j) p.y hui.1 hui.2 huj.1 huj.2 c1 c2
  have hlt2 := up_edge_X_lt (vtx l (j + l.length - 1)) (vtx l j)
    (vtx l (i + l.length - 1)) (vtx l i) p.y huj.1 huj.2 hui.1 hui.2 c3 c4
  linarith

/-- Counting with pointwise-equal predicates. -/
theorem countP_congr_mem {α : Type} (L : List α) (f g : α → Bool)
    (h : ∀ a ∈ L, f a = g a) : L.countP f = L.countP g := by
  rw [List.countP_eq_length_filter, List.countP_eq_length_filter,
    List.filter_congr h]

/-- Some loop edge of a strictly convex counter-clockwise vertex list
rises across the centroid's level. -/
theorem centroid_up_exists (l : List Point) (hc : StrictConvex l)
    (h3 : 3 ≤ l.length) :
    ∃ i, i < l.length ∧ (vtx l (i + l.length - 1)).y ≤ (centroid l).y ∧
      (centroid l).y < (vtx l i).y := by
  have hn : 0 < l.length := by omega
  have hne : l ≠ [] := by
    intro hcon
    rw [hcon] at hn
    simp at hn
  have hpy : (centroid l).y = (l.map (fun q => q.y)).sum / l.length := rfl
  have hnQ : (l.length : ℚ) ≠ 0 := by
    exact_mod_cast Nat.pos_iff_ne_zero.1 hn
  have hpn : (centroid l).y * l.length = (l.map (fun q => q.y)).sum := by
    rw [hpy]
    field_simp
  have hex_hi : ∃ q ∈ l, (centroid l).y < q.y := by
    by_contra hcon
    push_neg at hcon
    have hle2 : ∀ a ∈ l.map (fun q => q.y), a ≤ (centroid l).y := by
      intro a ha
      rcases List.mem_map.1 ha with ⟨q, hq, rfl⟩
      exact hcon q hq
    have hsum2 : (centroid l).y * (l.map (fun q => q.y)).length ≤
        (l.map (fun q => q.y)).sum := by
      rw [List.length_map, hpn]
    have hall := list_all_eq_of_le_of_sum _ _ hle2 hsum2
    have hj2 : (2:ℕ) ≠ (0 + 1) % l.length := by
      have e : (0 + 1) % l.length = 1 := Nat.mod_eq_of_lt (by omega)
      rw [e]
      omega
    have h0 := hc 0 (by omega) 2 (by omega) (by omega) hj2
    have hy0 : (vtx l 0).y = (centroid l).y :=
      hall _ (List.mem_map.2 ⟨vtx l 0, vtx_mem l 0 hne, rfl⟩)
    have hy1 : (vtx l (0 + 1)).y = (centroid l).y :=
      hall _ (List.mem_map.2 ⟨vtx l (0 + 1), vtx_mem l (0 + 1) hne, rfl⟩)
    have hy2 : (vtx l 2).y = (centroid l).y :=
      hall _ (List.mem_map.2 ⟨vtx l 2, vtx_mem l 2 hne, rfl⟩)
    rw [cross, hy0, hy1, hy2] at h0
    simp at h0
  have hex_lo : ∃ q ∈ l, q.y ≤ (centroid l).y := by
    by_contra hcon
    push_neg at hcon
    have hgt2 : ∀ a ∈ l.map (fun q => q.y), (centroid l).y < a := by
      intro a ha
      rcases List.mem_map.1 ha with ⟨q, hq, rfl⟩
      exact hcon q hq
    have hgt := list_sum_gt (l.map (fun q => q.y)) ((centroid l).y)
      (by simpa using hne) hgt2
    rw [List.length_map] at hgt
    linarith [hpn]
  obtain ⟨qT, hqTm, hqT⟩ := hex_hi
  obtain ⟨qF, hqFm, hqF⟩ := hex_lo
  obtain ⟨iT, hiT, hgT⟩ := List.getElem_of_mem hqTm
  obtain ⟨iF, hiF, hgF⟩ := List.getElem_of_mem hqFm
  have hvT : (centroid l).y < (vtx l iT).y := by
    rw [vtx_eq_getElem l iT hiT, hgT]
    exact hqT
  have hvF : (vtx l iF).y ≤ (centroid l).y := by
    rw [vtx_eq_getElem l iF hiF, hgF]
    exact hqF
  have hgT2 : decide ((centroid l).y <
      (vtx l (iF + (l.length - iF + iT))).y) = true := by
    have e : vtx l (iF + (l.length - iF + iT)) = vtx l iT := by
      apply vtx_congr
      have e2 : iF + (l.length - iF + iT) = l.length + iT := by omega
      rw [e2, Nat.add_mod_left]
    rw [e]
    exact decide_eq_true hvT
  obtain ⟨s, hs, hsF, hsT⟩ := exists_transition
    (fun k => decide ((centroid l).y < (vtx l k).y)) iF
    (decide_eq_false (not_lt.2 hvF)) ((l.length - iF) + iT) hgT2
  refine ⟨(iF + s + 1) % l.length, Nat.mod_lt _ hn, ?_, ?_⟩
  · have e : vtx l ((iF + s + 1) % l.length + l.length - 1) =
        vtx l (iF + s) := vtx_congr l _ _ (mod_helper l.length (iF + s) hn)
    rw [e]
    exact not_lt.1 (of_decide_eq_false hsF)
  · have e : vtx l ((iF + s + 1) % l.length) = vtx l (iF + s + 1) :=
      vtx_mod l _
    rw [e]
    exact of_decide_eq_true hsT

/-- The ray-casting test accepts the vertex centroid of every strictly
convex counter-clockwise vertex list. -/
theorem pnpoly_ccw (l : List Point) (hc : StrictConvex l)
    (h3 : 3 ≤ l.length) : isPointInPolygon (centroid l) l = true := by
  rw [isPointInPolygon_parity]
  obtain ⟨i0, hi0, hup0⟩ := centroid_up_exists l hc h3
  have hcnt : (List.range l.length).countP
      (fun i => edgeFlip (centroid l) (vtx l i)
        (vtx l (i + l.length - 1))) = 1 := by
    rw [countP_congr_mem (List.range l.length)
      (fun i => edgeFlip (centroid l) (vtx l i) (vtx l (i + l.length - 1)))
      (fun i => decide ((vtx l (i + l.length - 1)).y ≤ (centroid l).y ∧
        (centroid l).y < (vtx l i).y))
      (fun i hi => edgeFlip_up_char (centroid l) (vtx l (i + l.length - 1))
        (vtx l i) (centroid_cross_pos l hc h3 i (List.mem_range.1 hi)))]
    refine countP_eq_one _ _ (List.nodup_range l.length) i0
      (List.mem_range.2 hi0) (decide_eq_true hup0) ?_
    intro b hb hfb
    exact up_unique l (centroid l) hc h3 b i0 (List.mem_range.1 hb) hi0
      (of_decide_eq_true hfb) hup0
  rw [hcnt]
  rfl

/-- A cyclic vertex of the reversed list, in terms of the original. -/
theorem vtx_reverse_any (l : List Point) (k : ℕ) (hn : 0 < l.length) :
    vtx l.reverse k = vtx l (l.length - 1 - k % l.length) := by
  have h1 : vtx l.reverse k = vtx l.reverse (k % l.length) := by
    have h := (vtx_mod l.reverse k).symm
    rw [List.length_reverse] at h
    exact h
  rw [h1]
  have h2 : k % l.length < l.length := Nat.mod_lt _ hn
  rw [vtx_eq_getElem l.reverse _ (by rw [List.length_reverse]; exact h2),
    vtx_eq_getElem l _ (by omega)]
  exact List.getElem_reverse _

/-- The centroid does not depend on the vertex order. -/
theorem centroid_reverse (l : List Point) : centroid l.reverse = centroid l := by
  rw [centroid, centroid]
  rw [show (l.reverse.map (fun q => q.x)) = (l.map (fun q => q.x)).reverse
      from List.map_reverse _ _,
    show (l.reverse.map (fun q => q.y)) = (l.map (fun q => q.y)).reverse
      from List.map_reverse _ _,
    List.sum_reverse, List.sum_reverse, List.length_reverse]

/-- The reindexing map of the reversal argument permutes `range n`. -/
theorem range_rev_perm (n : ℕ) (hn : 0 < n) :
    ((List.range n).map (fun i => (n - i) % n)).Perm (List.range n) := by
  have hchar : ∀ i < n, (n - i) % n = if i = 0 then 0 else n - i := by
    intro i hi
    by_cases h0 : i = 0
    · subst h0
      rw [if_pos rfl]
      have e : n - 0 = n := by omega
      rw [e, Nat.mod_self]
    · rw [if_neg h0]
      exact Nat.mod_eq_of_lt (by omega)
  have hmem : ∀ a, a ∈ (List.range n).map (fun i => (n - i) % n) ↔
      a ∈ List.range n := by
    intro a
    constructor
    · intro ha
      rcases List.mem_map.1 ha with ⟨i, _, rfl⟩
      exact List.mem_range.2 (Nat.mod_lt _ hn)
    · intro ha
      rw [List.mem_range] at ha
      refine List.mem_map.2 ⟨(n - a) % n, List.mem_range.2 (Nat.mod_lt _ hn), ?_⟩
      by_cases h0 : a = 0
      · subst h0
        have e1 : (n - 0) % n = 0 := by
          have e : n - 0 = n := by omega
          rw [e, Nat.mod_self]
        rw [e1]
        exact e1
      · have e1 : (n - a) % n = n - a := Nat.mod_eq_of_lt (by omega)
        rw [e1]
        have e2 : n - (n - a) = a := by omega
        rw [e2]
        exact Nat.mod_eq_of_lt ha
  have hnd1 : ((List.range n).map (fun i => (n - i) % n)).Nodup := by
    refine List.Nodup.map_on ?_ (List.nodup_range n)
    intro x hx y hy hxy
    rw [List.mem_range] at hx hy
    rw [hchar x hx, hchar y hy] at hxy
    split_ifs at hxy <;> omega
  refine List.perm_iff_count.2 ?_
  intro a
  by_cases ha : a ∈ List.range n
  · rw [List.count_eq_one_of_mem hnd1 ((hmem a).2 ha),
      List.count_eq_one_of_mem (List.nodup_range n) ha]
  · rw [List.count_eq_zero_of_not_mem (fun hcon => ha ((hmem a).1 hcon)),
      List.count_eq_zero_of_not_mem ha]

/-- Reversing the vertex list does not change the ray-casting answer: the
loop visits the same undirected edges and `edgeFlip` is symmetric. -/
theorem isPointInPolygon_reverse (p : Point) (l : List Point) :
    isPointInPolygon p l.reverse = isPointInPolygon p l := by
  by_cases hn0 : l.length = 0
  · have he : l = [] := List.length_eq_zero.1 hn0
    rw [he]
    rfl
  have hn : 0 < l.length := Nat.pos_of_ne_zero hn0
  rw [isPointInPolygon_parity, isPointInPolygon_parity, List.length_reverse]
  suffices hcnt : (List.range l.length).countP
      (fun i => edgeFlip p (vtx l.reverse i)
        (vtx l.reverse (i + l.length - 1))) =
      (List.range l.length).countP
        (fun i => edgeFlip p (vtx l i) (vtx l (i + l.length - 1))) by
    rw [hcnt]
  have hpoint : ∀ i ∈ List.range l.length,
      edgeFlip p (vtx l.reverse i) (vtx l.reverse (i + l.length - 1)) =
        edgeFlip p (vtx l ((l.length - i) % l.length))
          (vtx l ((l.length - i) % l.length + l.length - 1)) := by
    intro i hi
    rw [List.mem_range] at hi
    have e1 : vtx l.reverse i = vtx l (l.length - 1 - i) := by
      rw [vtx_reverse_any l i hn, Nat.mod_eq_of_lt hi]
    have e2 : vtx l.reverse (i + l.length - 1) =
        vtx l (l.length - 1 - (i + l.length - 1) % l.length) :=
      vtx_reverse_any l _ hn
    rw [e1, e2]
    by_cases h0 : i = 0
    · subst h0
      have q1 : (0 + l.length - 1) % l.length = l.length - 1 := by
        have e : 0 + l.length - 1 = l.length - 1 := by omega
        rw [e]
        exact Nat.mod_eq_of_lt (by omega)
      rw [q1]
      have q2 : (l.length - 0) % l.length = 0 := by
        have e : l.length - 0 = l.length := by omega
        rw [e, Nat.mod_self]
      rw [q2]
      have q3 : l.length - 1 - 0 = l.length - 1 := by omega
      rw [q3]
      have q4 : l.length - 1 - (l.length - 1) = 0 := by omega
      rw [q4]
      have q5 : 0 + l.length - 1 = l.length - 1 := by omega
      rw [q5]
      exact edgeFlip_symm p _ _
    · have q2 : (l.length - i) % l.length = l.length - i :=
        Nat.mod_eq_of_lt (by omega)
      rw [q2]
      have q1 : (i + l.length - 1) % l.length = i - 1 := by
        rw [prev_mod l.length i hn hi, if_neg h0]
      rw [q1]
      have q3 : l.length - 1 - (i - 1) = l.length - i := by omega
      rw [q3]
      have q4 : vtx l (l.length - i + l.length - 1) =
          vtx l (l.length - 1 - i) := by
        apply vtx_congr
        have e : l.length - i + l.length - 1 =
            (l.length - 1 - i) + l.length := by omega
        rw [e, Nat.add_mod_right]
      rw [q4]
      exact edgeFlip_symm p _ _
  rw [countP_congr_mem (List.range l.length) _
    (fun i => edgeFlip p (vtx l ((l.length - i) % l.length))
      (vtx l ((l.length - i) % l.length + l.length - 1))) hpoint]
  rw [show (fun i => edgeFlip p (vtx l ((l.length - i) % l.length))
      (vtx l ((l.length - i) % l.length + l.length - 1))) =
    ((fun j => edgeFlip p (vtx l j) (vtx l (j + l.length - 1))) ∘
      (fun i => (l.length - i) % l.length)) from rfl]
  rw [← List.countP_map]
  exact (range_rev_perm l.length hn).countP_eq _

/-- **C8.**  For every vertex list describing a convex polygon (strictly
convex vertices, in either orientation, at least three of them) with
positive area, `isPointInPolygon` applied to the arithmetic-mean centroid
of its vertices returns `true`. -/
theorem C8_centroid_in_convex_polygon (l : List Point)
    (hconv : StrictConvex l ∨ StrictConvex l.reverse)
    (h3 : 3 ≤ l.length) (harea : 0 < areaOfPolygon l) :
    isPointInPolygon (centroid l) l = true := by
  rcases hconv with hccw | hcw
  · exact pnpoly_ccw l hccw h3
  · have h := pnpoly_ccw l.reverse hcw (by rw [List.length_reverse]; exact h3)
    rw [centroid_reverse, isPointInPolygon_reverse] at h
    exact h

/-- Witness for C8 on the counter-clockwise square of side 4. -/
theorem C8_centroid_in_convex_polygon_witness :
    ((StrictConvex [(⟨0, 0⟩ : Point), ⟨4, 0⟩, ⟨4, 4⟩, ⟨0, 4⟩] ∨
        StrictConvex ([(⟨0, 0⟩ : Point), ⟨4, 0⟩, ⟨4, 4⟩, ⟨0, 4⟩]).reverse) ∧
      3 ≤ ([(⟨0, 0⟩ : Point), ⟨4, 0⟩, ⟨4, 4⟩, ⟨0, 4⟩]).length ∧
      0 < areaOfPolygon [(⟨0, 0⟩ : Point), ⟨4, 0⟩, ⟨4, 4⟩, ⟨0, 4⟩]) ∧
    isPointInPolygon (centroid [(⟨0, 0⟩ : Point), ⟨4, 0⟩, ⟨4, 4⟩, ⟨0, 4⟩])
      [(⟨0, 0⟩ : Point), ⟨4, 0⟩, ⟨4, 4⟩, ⟨0, 4⟩] = true :=
  ⟨⟨Or.inl (by with_unfolding_all decide), by decide,
      by with_unfolding_all decide⟩,
    C8_centroid_in_convex_polygon [⟨0, 0⟩, ⟨4, 0⟩, ⟨4, 4⟩, ⟨0, 4⟩]
      (Or.inl (by with_unfolding_all decide)) (by decide)
      (by with_unfolding_all decide)⟩

end FlowDrafter
